import Mathlib

/-
  Verification development for the WFX-Timesheet reconciliation engine.

  The definitions below are a shallow embedding of the JavaScript source:
  the `EnhancedJobMatcher` class (address normalization, match scoring,
  the two-pass job matching engine, accuracy metrics) and the day-level
  traditional comparison of `timesheetComparison.js`.

  Modelling conventions:
  - JS strings are `List Char`; JS numbers used for scores and hours are `ℚ`.
  - A nullable/absent value is an `Option`.
  - Time-of-day strings ("HH:MM") are carried as the parsed pair
    `Option (Nat × Nat)` consumed by `timeToMinutes`, mirroring
    `timeToMinutes` on the corresponding string (`none` = absent/falsy).
  - A JS `TypeError` (member access on `null`) is `Except.error ()`.
  - `x || d` on numbers is `jsOrQ` (`0` and absent fall through to `d`).
-/

namespace WfxSpec

/-! ### Character classes of the JS regexes (ASCII `\w`, `\s`) -/

/-- JS regex word character class `\w` = `[A-Za-z0-9_]` (ASCII). -/
def isW (c : Char) : Bool :=
  (65 ≤ c.toNat && c.toNat ≤ 90) || (97 ≤ c.toNat && c.toNat ≤ 122) ||
  (48 ≤ c.toNat && c.toNat ≤ 57) || c.toNat == 95

/-- Whitespace characters recognized by `\s`, `split` and `trim` (ASCII
fragment): space, tab, newline, carriage return. -/
def isS (c : Char) : Bool :=
  c.toNat == 32 || c.toNat == 9 || c.toNat == 10 || c.toNat == 13

/-- A character that survives `replace(/[^\w\s]/g, '')`. -/
def isWS (c : Char) : Bool := isW c || isS c

/-- ASCII fragment of `String.prototype.toLowerCase`. -/
def lowerChar (c : Char) : Char :=
  if 65 ≤ c.toNat ∧ c.toNat ≤ 90 then Char.ofNat (c.toNat + 32) else c

/-! ### `normalizeAddress` (src/unnamed/part_001, lines 451-457) -/

/-- The street-type suffixes removed by `normalizeAddress`. -/
def bannedWords : List (List Char) :=
  ["street".data, "st".data, "road".data, "rd".data, "avenue".data, "ave".data,
   "drive".data, "dr".data, "lane".data, "ln".data, "court".data, "ct".data]

/-- Emit one completed word run (`cur` holds it reversed): a run equal to a
banned suffix is deleted, anything else is kept.  This is the action of
`replace(/\b(street|st|...)\b/g, '')` on one maximal `\w`-run. -/
def emitRun (cur : List Char) : List Char :=
  if cur.reverse ∈ bannedWords then [] else cur.reverse

/-- State machine for the suffix-removal regex: `cur` is the reversed current
maximal `\w`-run. -/
def rbGo (cur : List Char) : List Char → List Char
  | [] => emitRun cur
  | c :: cs =>
    if isW c then rbGo (c :: cur) cs
    else emitRun cur ++ c :: rbGo [] cs

/-- `replace(/\b(street|st|road|rd|avenue|ave|drive|dr|lane|ln|court|ct)\b/g, '')`:
delete every maximal `\w`-run equal to a banned street-type suffix. -/
def removeBanned (l : List Char) : List Char := rbGo [] l

/-- State machine for `replace(/\s+/g, ' ')`; the flag records whether we are
inside a whitespace run that has already emitted its single `' '`. -/
def cwGo (inWs : Bool) : List Char → List Char
  | [] => []
  | c :: cs =>
    if isS c then
      (if inWs then cwGo true cs else ' ' :: cwGo true cs)
    else c :: cwGo false cs

/-- `replace(/\s+/g, ' ')`: collapse every whitespace run to a single space. -/
def collapseWs (l : List Char) : List Char := cwGo false l

/-- Remove leading whitespace (front half of `trim()`). -/
def ldropWs (l : List Char) : List Char := l.dropWhile isS

/-- Remove trailing whitespace (back half of `trim()`). -/
def rdropWs (l : List Char) : List Char := (l.reverse.dropWhile isS).reverse

/-- `String.prototype.trim`. -/
def trimWs (l : List Char) : List Char := rdropWs (ldropWs l)

/-- `replace(/[^\w\s]/g, '')`: drop punctuation. -/
def filterChars (l : List Char) : List Char := l.filter isWS

/-- `normalizeAddress` (part_001:451-457): lowercase, strip street-type
suffix words, strip punctuation, collapse whitespace, trim. -/
def normalizeAddress (l : List Char) : List Char :=
  trimWs (collapseWs (filterChars (removeBanned (l.map lowerChar))))

/-! ### Maximal word runs (analysis device for the idempotence proof) -/

/-- State machine listing the maximal `\w`-runs of a string (`cur` reversed). -/
def wGo (cur : List Char) : List Char → List (List Char)
  | [] => if cur.isEmpty then [] else [cur.reverse]
  | c :: cs =>
    if isW c then wGo (c :: cur) cs
    else (if cur.isEmpty then [] else [cur.reverse]) ++ wGo [] cs

/-- The maximal `\w`-runs of a string, in order. -/
def wordsOf (l : List Char) : List (List Char) := wGo [] l

/-- Join words with single spaces; the canonical shape of `normalizeAddress`
output on punctuation-free input. -/
def joinWords : List (List Char) → List Char
  | [] => []
  | [w] => w
  | w :: ws => w ++ ' ' :: joinWords ws

/-! ### Data model (part_001; upstream CSV/WFX rows) -/

/-- One GPS trip row.  Time-of-day strings are carried parsed (see header);
`classification` is set by the upstream trip classifier. -/
structure Trip where
  started : Option (Nat × Nat)
  finish : Option (Nat × Nat)
  drivingTime : Option (Nat × Nat)
  addressTo : Option (List Char)
  classification : List Char
  deriving DecidableEq, Repr

/-- Job metadata attached to an entry (`fetchJobDetails` result); `address`
is `null` for the placeholder produced when the API lookup fails. -/
structure JobDetails where
  address : Option (List Char)
  deriving DecidableEq, Repr

/-- One WFX timesheet entry, after `matchJobsForDay` attached `jobDetails`
(`none` models the JS `null` attached when the entry has no job id). -/
structure WfxEntry where
  id : Option (List Char)
  jobId : Option (List Char)
  startTime : Option (Nat × Nat)
  minutes : Option ℚ
  jobDetails : Option JobDetails
  deriving DecidableEq, Repr

/-- The `config.processing.jobMatching` block (part_002:65-82). -/
structure MatchConfig where
  minimumMatchConfidence : ℚ
  fuzzyMatchThreshold : ℚ
  maxTimeOffsetMinutes : ℚ
  maxLocationDistanceKm : ℚ
  locationWeight : ℚ
  timeWeight : ℚ
  durationWeight : ℚ
  jobTypeWeight : ℚ
  deriving DecidableEq, Repr

/-- Default `jobMatching` configuration values (part_002:65-82). -/
def defaultJobMatching : MatchConfig :=
  { minimumMatchConfidence := 7/10
    fuzzyMatchThreshold := 2/5
    maxTimeOffsetMinutes := 30
    maxLocationDistanceKm := 2
    locationWeight := 1/2
    timeWeight := 3/10
    durationWeight := 1/10
    jobTypeWeight := 1/10 }

/-! ### Scoring helpers (part_001:447-473) -/

/-- JS `x || d` on an optional number: absent and `0` fall through to `d`. -/
def jsOrQ (x : Option ℚ) (d : ℚ) : ℚ :=
  match x with
  | none => d
  | some v => if v = 0 then d else v

/-- JS string falsiness (`!s`): absent or empty. -/
def jsFalsyStr (s : Option (List Char)) : Bool :=
  match s with
  | none => true
  | some l => l.isEmpty

/-- `timeToMinutes` (part_001:469-473) on the parsed form of its argument:
absent/falsy strings give 0, otherwise hours*60+minutes. -/
def timeToMinutes (t : Option (Nat × Nat)) : ℚ :=
  match t with
  | none => 0
  | some (h, m) => (h : ℚ) * 60 + (m : ℚ)

/-- `addr.split(' ')` (split on single spaces, keeping empty chunks);
`cur` holds the current chunk reversed. -/
def splitAux (cur : List Char) : List Char → List (List Char)
  | [] => [cur.reverse]
  | c :: cs =>
    if c = ' ' then cur.reverse :: splitAux [] cs else splitAux (c :: cur) cs

/-- `addr.split(' ')`. -/
def splitSpace (l : List Char) : List (List Char) := splitAux [] l

/-- `calculatePartialAddressMatch` (part_001:459-467): shared long tokens
over the larger token count. -/
def calculatePartialAddressMatch (addr1 addr2 : List Char) : ℚ :=
  let words1 := (splitSpace addr1).filter (fun w => 2 < w.length)
  let words2 := (splitSpace addr2).filter (fun w => 2 < w.length)
  if words1.length = 0 ∨ words2.length = 0 then 0
  else
    let shared := words1.filter (fun w => w ∈ words2)
    (shared.length : ℚ) / (max words1.length words2.length : ℚ)

/-- Result of `calculateLocationMatch`. -/
structure LocationScore where
  score : ℚ
  distanceKm : Option ℚ
  deriving DecidableEq, Repr

/-- `calculateLocationMatch` (part_001:280-306). -/
def calculateLocationMatch (tripAddress jobAddress : Option (List Char)) :
    LocationScore :=
  if jsFalsyStr tripAddress ∨ jsFalsyStr jobAddress then
    { score := 0, distanceKm := none }
  else
    let normalizedTrip := normalizeAddress (tripAddress.getD [])
    let normalizedJob := normalizeAddress (jobAddress.getD [])
    if normalizedTrip = normalizedJob then { score := 1, distanceKm := some 0 }
    else
      let partialScore := calculatePartialAddressMatch normalizedTrip normalizedJob
      if partialScore > 4/5 then { score := partialScore, distanceKm := some (1/10) }
      else { score := partialScore, distanceKm := some ((1 - partialScore) * 5) }

/-- Result of `calculateTimeMatch`. -/
structure TimeScore where
  score : ℚ
  offsetMinutes : ℚ
  deriving DecidableEq, Repr

/-- `calculateTimeMatch` (part_001:314-340): overlap of the trip interval and
the entry interval (start defaulting to 09:00, length `minutes || 60`),
normalized by the larger interval length. -/
def calculateTimeMatch (trip : Trip) (wfxEntry : WfxEntry) : TimeScore :=
  let tripStart := timeToMinutes trip.started
  let tripEnd := timeToMinutes trip.finish
  let wfxStart := timeToMinutes (wfxEntry.startTime.getD (9, 0))
  let wfxEnd := wfxStart + jsOrQ wfxEntry.minutes 60
  let overlapStart := max tripStart wfxStart
  let overlapEnd := min tripEnd wfxEnd
  let overlap := max 0 (overlapEnd - overlapStart)
  let totalCovered := max (tripEnd - tripStart) (wfxEnd - wfxStart)
  { score := if totalCovered > 0 then overlap / totalCovered else 0
    offsetMinutes := |tripStart - wfxStart| }

/-- `calculateDurationMatch` (part_001:348-356). -/
def calculateDurationMatch (trip : Trip) (wfxEntry : WfxEntry) : ℚ :=
  let tripDuration := timeToMinutes trip.drivingTime
  let wfxDuration := jsOrQ wfxEntry.minutes 0
  if tripDuration = 0 ∨ wfxDuration = 0 then 0
  else min tripDuration wfxDuration / max tripDuration wfxDuration

/-- `calculateJobTypeMatch` (part_001:364-368): the neutral placeholder. -/
def calculateJobTypeMatch (_trip : Trip) (_wfxEntry : WfxEntry) : ℚ := 1/2

/-- Result of `calculateMatchScore`. -/
structure Score where
  confidence : ℚ
  criteria : List (List Char)
  locationMatch : ℚ
  timeMatch : ℚ
  distanceKm : Option ℚ
  timeOffsetMinutes : ℚ
  deriving DecidableEq, Repr

/-- The location contribution: full weight above 0.8, 0.6 of the weight
above 0.6, nothing otherwise (part_001:236-242). -/
def locationPart (score : ℚ) (cfg : MatchConfig) : ℚ × List (List Char) :=
  if score > 4/5 then (cfg.locationWeight, ["exact_location".data])
  else if score > 3/5 then
    (cfg.locationWeight * (3/5), ["approximate_location".data])
  else (0, [])

/-- The time contribution: full weight above 0.8, half above 0.5
(part_001:249-255). -/
def timeOverlapPart (score : ℚ) (cfg : MatchConfig) : ℚ × List (List Char) :=
  if score > 4/5 then (cfg.timeWeight, ["time_overlap".data])
  else if score > 1/2 then
    (cfg.timeWeight * (1/2), ["approximate_time".data])
  else (0, [])

/-- The duration contribution: the weight above 0.7 (part_001:258-262). -/
def durationPart (score : ℚ) (cfg : MatchConfig) : ℚ × List (List Char) :=
  if score > 7/10 then (cfg.durationWeight, ["duration_match".data])
  else (0, [])

/-- The job-type contribution: the weight strictly above 0.5
(part_001:265-269). -/
def jobTypePart (score : ℚ) (cfg : MatchConfig) : ℚ × List (List Char) :=
  if score > 1/2 then (cfg.jobTypeWeight, ["job_type_match".data])
  else (0, [])

/-- Body of `calculateMatchScore` (part_001:218-272) given resolved
`jobDetails`; the sequential `confidence +=` / `criteria.push` updates are
written as one contribution pair per dimension. -/
def calculateMatchScoreJD (trip : Trip) (wfxEntry : WfxEntry)
    (jd : JobDetails) (cfg : MatchConfig) : Score :=
  let locationScore := calculateLocationMatch trip.addressTo jd.address
  let timeScore := calculateTimeMatch trip wfxEntry
  let locPart := locationPart locationScore.score cfg
  let timePart := timeOverlapPart timeScore.score cfg
  let durPart := durationPart (calculateDurationMatch trip wfxEntry) cfg
  let jtPart := jobTypePart (calculateJobTypeMatch trip wfxEntry) cfg
  { confidence := locPart.1 + timePart.1 + durPart.1 + jtPart.1
    criteria := locPart.2 ++ timePart.2 ++ durPart.2 ++ jtPart.2
    locationMatch := locationScore.score
    timeMatch := timeScore.score
    distanceKm := locationScore.distanceKm
    timeOffsetMinutes := timeScore.offsetMinutes }

/-- `calculateMatchScore` as called on an entry whose `jobDetails` may be
`null`: the JS body dereferences `wfxEntry.jobDetails.address`, so a missing
record is a thrown `TypeError` (`Except.error ()`). -/
def calculateMatchScore (trip : Trip) (wfxEntry : WfxEntry)
    (cfg : MatchConfig) : Except Unit Score :=
  match wfxEntry.jobDetails with
  | none => .error ()
  | some jd => .ok (calculateMatchScoreJD trip wfxEntry jd cfg)

/-! ### `findBestJobMatch` (part_001:185-209) -/

/-- The candidate tracked by `findBestJobMatch`. -/
structure BestMatch where
  wfxEntry : WfxEntry
  confidence : ℚ
  criteria : List (List Char)
  locationMatch : ℚ
  timeMatch : ℚ
  distanceKm : Option ℚ
  timeOffsetMinutes : ℚ
  deriving DecidableEq, Repr

/-- Package a score as the `bestMatch` record of `findBestJobMatch`. -/
def mkBestMatch (wfxEntry : WfxEntry) (s : Score) : BestMatch :=
  { wfxEntry := wfxEntry
    confidence := s.confidence
    criteria := s.criteria
    locationMatch := s.locationMatch
    timeMatch := s.timeMatch
    distanceKm := s.distanceKm
    timeOffsetMinutes := s.timeOffsetMinutes }

/-- Confidence of the candidate so far (`highestConfidence` starts at 0). -/
def bestConfidence (best : Option BestMatch) : ℚ :=
  match best with
  | none => 0
  | some b => b.confidence

/-- One iteration of the `findBestJobMatch` loop: entries without
`jobDetails` are skipped (`continue`), and the candidate is replaced on a
strictly higher confidence. -/
def findBestStep (trip : Trip) (cfg : MatchConfig) (best : Option BestMatch)
    (wfxEntry : WfxEntry) : Option BestMatch :=
  match wfxEntry.jobDetails with
  | none => best
  | some jd =>
    let matchScore := calculateMatchScoreJD trip wfxEntry jd cfg
    if matchScore.confidence > bestConfidence best then
      some (mkBestMatch wfxEntry matchScore)
    else best

/-- `findBestJobMatch` (part_001:185-209): scan all entries, skipping those
without `jobDetails`, keeping the strictly-highest-confidence candidate.
With the guard in place it never throws. -/
def findBestJobMatch (trip : Trip) (wfxEntries : List WfxEntry)
    (cfg : MatchConfig) : Option BestMatch :=
  wfxEntries.foldl (findBestStep trip cfg) none

/-! ### `performJobMatching` (part_001:117-176) and the fuzzy pass -/

/-- One committed trip/entry pairing (`matchInfo`). -/
structure MatchInfo where
  trip : Trip
  wfxEntry : WfxEntry
  confidence : ℚ
  matchCriteria : List (List Char)
  locationMatch : ℚ
  timeMatch : ℚ
  distanceKm : Option ℚ
  timeOffsetMinutes : ℚ
  deriving DecidableEq, Repr

/-- A time-offset discrepancy record. -/
structure TimeDiscrepancy where
  trip : Trip
  wfxEntry : WfxEntry
  offsetMinutes : ℚ
  severity : List Char
  deriving DecidableEq, Repr

/-- A location-distance discrepancy record. -/
structure LocationIssue where
  trip : Trip
  wfxEntry : WfxEntry
  distanceKm : Option ℚ
  severity : List Char
  deriving DecidableEq, Repr

/-- The `results` object built by `performJobMatching`. -/
structure MatchResults where
  matched : List MatchInfo
  unmatchedTrips : List Trip
  unmatchedWfxEntries : List WfxEntry
  timeDiscrepancies : List TimeDiscrepancy
  locationIssues : List LocationIssue
  deriving DecidableEq, Repr

/-- The `matchInfo` pushed by the confident pass. -/
def mkMatchInfo (trip : Trip) (bm : BestMatch) : MatchInfo :=
  { trip := trip
    wfxEntry := bm.wfxEntry
    confidence := bm.confidence
    matchCriteria := bm.criteria
    locationMatch := bm.locationMatch
    timeMatch := bm.timeMatch
    distanceKm := bm.distanceKm
    timeOffsetMinutes := bm.timeOffsetMinutes }

/-- `null > x` is false in JS, so a missing `distanceKm` never flags. -/
def jsGtOpt (x : Option ℚ) (y : ℚ) : Bool :=
  match x with
  | none => false
  | some v => v > y

/-- Remove the first entry whose `id` equals the given one
(`findIndex(e => e.id === ...)` followed by `splice`); no-op when absent. -/
def removeFirstById (eid : Option (List Char)) :
    List WfxEntry → List WfxEntry
  | [] => []
  | e :: es => if e.id = eid then es else e :: removeFirstById eid es

/-- State of the confident pass: `revPre` are the trips still to process
(most recent first, matching `for (let i = trips.length - 1; i >= 0; i--)`);
`surv` are the processed trips that stayed unmatched, in original order.
`findBestJobMatch` is called with the full `wfxEntries` list, exactly as in
the source (not with the remaining unmatched pool). -/
def pass1Go (wfxEntries : List WfxEntry) (cfg : MatchConfig) :
    List Trip → MatchResults → MatchResults
  | [], st => st
  | trip :: revPre, st =>
    match findBestJobMatch trip wfxEntries cfg with
    | some bestMatch =>
      if bestMatch.confidence > cfg.minimumMatchConfidence then
        let timeDiscrepancies :=
          if bestMatch.timeOffsetMinutes > cfg.maxTimeOffsetMinutes then
            st.timeDiscrepancies ++
              [{ trip := trip, wfxEntry := bestMatch.wfxEntry
                 offsetMinutes := bestMatch.timeOffsetMinutes
                 severity := if bestMatch.timeOffsetMinutes > 60 then
                   "high".data else "medium".data }]
          else st.timeDiscrepancies
        let locationIssues :=
          if jsGtOpt bestMatch.distanceKm cfg.maxLocationDistanceKm then
            st.locationIssues ++
              [{ trip := trip, wfxEntry := bestMatch.wfxEntry
                 distanceKm := bestMatch.distanceKm
                 severity := if jsGtOpt bestMatch.distanceKm
                     (cfg.maxLocationDistanceKm * 2) then
                   "high".data else "medium".data }]
          else st.locationIssues
        pass1Go wfxEntries cfg revPre
          { matched := st.matched ++ [mkMatchInfo trip bestMatch]
            unmatchedTrips := st.unmatchedTrips
            unmatchedWfxEntries :=
              removeFirstById bestMatch.wfxEntry.id st.unmatchedWfxEntries
            timeDiscrepancies := timeDiscrepancies
            locationIssues := locationIssues }
      else
        pass1Go wfxEntries cfg revPre
          { st with unmatchedTrips := trip :: st.unmatchedTrips }
    | none =>
      pass1Go wfxEntries cfg revPre
        { st with unmatchedTrips := trip :: st.unmatchedTrips }

/-- Scan the unmatched entries for the fuzzy pass, innermost loop
`for (let j = ...length - 1; j >= 0; j--)`: candidates are tried from the
END of the list; `calculateMatchScore` is called without any `jobDetails`
guard, so an entry with `null` details throws.  On success returns the
score, the entry, and the remaining entries in order. -/
def fuzzyFind (trip : Trip) (cfg : MatchConfig) :
    List WfxEntry → Except Unit (Option (Score × WfxEntry × List WfxEntry))
  | [] => .ok none
  | wfxEntry :: rest => do
    match ← fuzzyFind trip cfg rest with
    | some (s, e, rest') => pure (some (s, e, wfxEntry :: rest'))
    | none =>
      let matchScore ← calculateMatchScore trip wfxEntry cfg
      if matchScore.confidence > cfg.fuzzyMatchThreshold then
        pure (some (matchScore, wfxEntry, rest))
      else
        pure none

/-- The match pushed by the fuzzy pass (criteria extended with
`fuzzy_match`). -/
def mkFuzzyMatchInfo (trip : Trip) (wfxEntry : WfxEntry) (s : Score) :
    MatchInfo :=
  { trip := trip
    wfxEntry := wfxEntry
    confidence := s.confidence
    matchCriteria := s.criteria ++ ["fuzzy_match".data]
    locationMatch := s.locationMatch
    timeMatch := s.timeMatch
    distanceKm := s.distanceKm
    timeOffsetMinutes := s.timeOffsetMinutes }

/-- Outer loop of `performFuzzyMatching` (part_001:375-407): remaining trips
processed most recent first; `surv` rebuilds the surviving unmatched trips
in original order. -/
def fuzzyGo (cfg : MatchConfig) :
    List Trip → List WfxEntry → List Trip → List MatchInfo →
    Except Unit (List MatchInfo × List Trip × List WfxEntry)
  | [], wfx, surv, ms => .ok (ms, surv, wfx)
  | trip :: revPre, wfx, surv, ms => do
    match ← fuzzyFind trip cfg wfx with
    | some (s, e, wfx') =>
      fuzzyGo cfg revPre wfx' surv (ms ++ [mkFuzzyMatchInfo trip e s])
    | none =>
      fuzzyGo cfg revPre wfx (trip :: surv) ms

/-- `performFuzzyMatching` (part_001:375-407) applied to the results of the
confident pass. -/
def performFuzzyMatching (cfg : MatchConfig) (st : MatchResults) :
    Except Unit MatchResults := do
  let (ms, surv, wfx) ←
    fuzzyGo cfg st.unmatchedTrips.reverse st.unmatchedWfxEntries [] st.matched
  pure { st with matched := ms, unmatchedTrips := surv,
                 unmatchedWfxEntries := wfx }

/-- `performJobMatching` (part_001:117-176): confident pass over the trips
from most recent to least recent, then the fuzzy pass over the remainder. -/
def performJobMatching (trips : List Trip) (wfxEntries : List WfxEntry)
    (cfg : MatchConfig) : Except Unit MatchResults :=
  let st := pass1Go wfxEntries cfg trips.reverse
    { matched := []
      unmatchedTrips := []
      unmatchedWfxEntries := wfxEntries
      timeDiscrepancies := []
      locationIssues := [] }
  performFuzzyMatching cfg st

/-- The matched list of a `performJobMatching` outcome (empty on a thrown
error, which aborts the day). -/
def matchedOf (r : Except Unit MatchResults) : List MatchInfo :=
  match r with
  | .ok res => res.matched
  | .error _ => []

/-! ### Day-level input rows -/

/-- One day of CSV trip data (`csvDay`), with the numeric fields already
parsed as upstream supplies them. -/
structure CsvDay where
  netWorkHours : ℚ
  trips : List Trip
  workTravelTime : ℚ
  personalTravelTime : ℚ
  totalDistance : ℚ
  deriving DecidableEq, Repr

/-- One WFX timesheet entry before `jobDetails` is attached. -/
structure RawWfxEntry where
  id : Option (List Char)
  jobId : Option (List Char)
  startTime : Option (Nat × Nat)
  minutes : Option ℚ
  deriving DecidableEq, Repr

/-- One day of WFX data (`wfxDay`). -/
structure WfxDay where
  totalHours : ℚ
  entries : List RawWfxEntry
  deriving DecidableEq, Repr

/-- The external `wfxClient.getJob` collaborator: `none` models a thrown
lookup error, which `fetchJobDetails` catches and degrades to the
placeholder record with a `null` address. -/
structure RawJob where
  address : Option (List Char)
  deriving DecidableEq, Repr

/-- The `jobDetails[entry.jobId] || null` attachment in `matchJobsForDay`
(part_001:87-92), with `fetchJobDetails` (part_001:414-445) inlined
pointwise: a missing job id attaches `null`; a failed lookup attaches the
placeholder (address `null`); a successful one attaches the fetched
address.  The run-scoped cache returns the same value per id, so it is not
modelled separately. -/
def attachJobDetails (getJob : List Char → Option RawJob) (e : RawWfxEntry) :
    WfxEntry :=
  { id := e.id
    jobId := e.jobId
    startTime := e.startTime
    minutes := e.minutes
    jobDetails := e.jobId.map (fun jid =>
      match getJob jid with
      | some j => { address := j.address }
      | none => { address := none }) }

/-- Stable insertion into a sorted list (JS `Array.prototype.sort` on V8 is
stable). -/
def insertLe {α : Type} (le : α → α → Bool) (a : α) : List α → List α
  | [] => [a]
  | b :: bs => if le a b then a :: b :: bs else b :: insertLe le a bs

/-- Stable sort used for the time-ordered trip and entry lists. -/
def sortByLe {α : Type} (le : α → α → Bool) : List α → List α
  | [] => []
  | a :: as => insertLe le a (sortByLe le as)

/-- Trip ordering by start time; the source compares the raw "HH:MM"
strings with `localeCompare`, embedded here on the parsed minutes. -/
def tripStartLe (a b : Trip) : Bool :=
  timeToMinutes a.started ≤ timeToMinutes b.started

/-- Entry ordering by `startTime || ''`. -/
def entryStartLe (a b : WfxEntry) : Bool :=
  timeToMinutes a.startTime ≤ timeToMinutes b.startTime

/-! ### `matchJobsForDay` (part_001:55-108) -/

/-- The `dayComparison.summary` block. -/
structure DaySummary where
  totalCsvHours : ℚ
  totalWfxHours : ℚ
  matchedHours : ℚ
  locationMatchRate : ℚ
  timeMatchRate : ℚ
  deriving DecidableEq, Repr

/-- One day's enhanced comparison output. -/
structure DayComparison where
  date : List Char
  jobMatches : List MatchInfo
  unmatchedTrips : List Trip
  unmatchedWfxEntries : List WfxEntry
  timeDiscrepancies : List TimeDiscrepancy
  locationIssues : List LocationIssue
  summary : DaySummary
  deriving DecidableEq, Repr

/-- `calculateDaySummary` (part_001:475-486). -/
def calculateDaySummary (dc : DayComparison) : DayComparison :=
  let matched := dc.jobMatches
  let matchedHours :=
    matched.foldl (fun sum m => sum + jsOrQ m.wfxEntry.minutes 0 / 60) 0
  let locationMatchRate :=
    if matched.length > 0 then
      matched.foldl (fun sum m => sum + m.locationMatch) (0 : ℚ) /
        (matched.length : ℚ)
    else dc.summary.locationMatchRate
  let timeMatchRate :=
    if matched.length > 0 then
      matched.foldl (fun sum m => sum + m.timeMatch) (0 : ℚ) /
        (matched.length : ℚ)
    else dc.summary.timeMatchRate
  { dc with summary := { dc.summary with
      matchedHours := matchedHours
      locationMatchRate := locationMatchRate
      timeMatchRate := timeMatchRate } }

/-- `matchJobsForDay` (part_001:55-108): early-return when the day has no
WFX entries, otherwise attach job details, sort both pools by start time
and run the two-pass matcher.  An error thrown inside the matcher
propagates (there is no per-day catch). -/
def matchJobsForDay (date : List Char) (csvDay : CsvDay)
    (wfxDay : Option WfxDay) (cfg : MatchConfig)
    (getJob : List Char → Option RawJob) : Except Unit DayComparison :=
  let summary0 : DaySummary :=
    { totalCsvHours := csvDay.netWorkHours
      totalWfxHours := (wfxDay.map (·.totalHours)).getD 0
      matchedHours := 0
      locationMatchRate := 0
      timeMatchRate := 0 }
  match wfxDay with
  | none =>
    .ok { date := date
          jobMatches := []
          unmatchedTrips :=
            csvDay.trips.filter (fun t => t.classification = "work".data)
          unmatchedWfxEntries := []
          timeDiscrepancies := []
          locationIssues := []
          summary := summary0 }
  | some w =>
    if w.entries.isEmpty then
      .ok { date := date
            jobMatches := []
            unmatchedTrips :=
              csvDay.trips.filter (fun t => t.classification = "work".data)
            unmatchedWfxEntries := []
            timeDiscrepancies := []
            locationIssues := []
            summary := summary0 }
    else do
      let workTrips := sortByLe tripStartLe
        (csvDay.trips.filter (fun t => t.classification = "work".data))
      let wfxEntriesWithJobs :=
        sortByLe entryStartLe (w.entries.map (attachJobDetails getJob))
      let res ← performJobMatching workTrips wfxEntriesWithJobs cfg
      .ok (calculateDaySummary
        { date := date
          jobMatches := res.matched
          unmatchedTrips := res.unmatchedTrips
          unmatchedWfxEntries := res.unmatchedWfxEntries
          timeDiscrepancies := res.timeDiscrepancies
          locationIssues := res.locationIssues
          summary := summary0 })

/-! ### `performEnhancedComparison` (part_001:17-45) -/

/-- The enhanced run-level summary (part_001:20-28); its `alerts` list is
never written to in the matcher and is not modelled. -/
structure EnhancedSummary where
  totalDays : ℕ
  matchedJobs : ℕ
  unmatchedTrips : ℕ
  unmatchedWfxEntries : ℕ
  locationMatchAccuracy : ℚ
  timeMatchAccuracy : ℚ
  deriving DecidableEq, Repr

/-- Initial enhanced summary. -/
def initEnhancedSummary : EnhancedSummary :=
  { totalDays := 0, matchedJobs := 0, unmatchedTrips := 0
    unmatchedWfxEntries := 0, locationMatchAccuracy := 0
    timeMatchAccuracy := 0 }

/-- `updateSummaryStats` (part_001:488-492). -/
def updateSummaryStats (s : EnhancedSummary) (dc : DayComparison) :
    EnhancedSummary :=
  { s with
    matchedJobs := s.matchedJobs + dc.jobMatches.length
    unmatchedTrips := s.unmatchedTrips + dc.unmatchedTrips.length
    unmatchedWfxEntries := s.unmatchedWfxEntries + dc.unmatchedWfxEntries.length }

/-- `Number.prototype.toFixed(1)` on a nonnegative rational, as a rational:
round to one decimal place, ties away from zero. -/
def toFixed1 (x : ℚ) : ℚ := (⌊x * 10 + 1/2⌋ : ℚ) / 10

/-- `calculateAccuracyMetrics` (part_001:494-502). -/
def calculateAccuracyMetrics (s : EnhancedSummary) : EnhancedSummary :=
  let totalJobs := s.matchedJobs + s.unmatchedWfxEntries
  let totalTrips := s.matchedJobs + s.unmatchedTrips
  { s with
    locationMatchAccuracy :=
      if totalJobs > 0 then toFixed1 ((s.matchedJobs : ℚ) / totalJobs * 100)
      else 0
    timeMatchAccuracy :=
      if totalTrips > 0 then toFixed1 ((s.matchedJobs : ℚ) / totalTrips * 100)
      else 0 }

/-- The full enhanced comparison result. -/
structure EnhancedComparison where
  dailyComparisons : List (List Char × DayComparison)
  summary : EnhancedSummary
  deriving DecidableEq, Repr

/-- Lookup of `wfxData[date]`. -/
def lookupDay {α : Type} (m : List (List Char × α)) (d : List Char) :
    Option α :=
  (m.find? (fun p => p.1 = d)).map (·.2)

/-- `performEnhancedComparison` (part_001:17-45): fold `matchJobsForDay`
over the days in insertion order, accumulate summary counts, then compute
accuracy metrics.  The loop body has no try/catch, so a failing day aborts
the whole enhanced comparison. -/
def performEnhancedComparison (csvData : List (List Char × CsvDay))
    (wfxData : List (List Char × WfxDay)) (cfg : MatchConfig)
    (getJob : List Char → Option RawJob) : Except Unit EnhancedComparison := do
  let folded ← csvData.foldlM
    (fun (acc : EnhancedComparison) day => do
      let dc ← matchJobsForDay day.1 day.2 (lookupDay wfxData day.1) cfg getJob
      pure { dailyComparisons := acc.dailyComparisons ++ [(day.1, dc)]
             summary := updateSummaryStats acc.summary dc })
    { dailyComparisons := [], summary := initEnhancedSummary }
  pure { folded with
         summary := calculateAccuracyMetrics
           { folded.summary with totalDays := csvData.length } }

/-! ### Traditional day-level comparison (src/src/timesheetComparison.js) -/

/-- The `config.alerts` block (part_002:116-125). -/
structure AlertConfig where
  timesheetDiscrepancyHours : ℚ
  unaccountedTravelMinutes : ℚ
  dailyDistanceThreshold : ℚ
  missingTimesheetAlert : Bool
  deriving DecidableEq, Repr

/-- Default `config.alerts` values. -/
def defaultAlerts : AlertConfig :=
  { timesheetDiscrepancyHours := 1/2
    unaccountedTravelMinutes := 30
    dailyDistanceThreshold := 200
    missingTimesheetAlert := true }

/-- An alert of the traditional comparison; the human-readable `message`
string is not modelled.  `severity` is `none` for alerts pushed without a
severity field. -/
structure TradAlert where
  atype : List Char
  severity : Option (List Char)
  deriving DecidableEq, Repr

/-- One day's traditional comparison (timesheetComparison.js:467-528). -/
structure TradDayComparison where
  date : List Char
  csvHours : ℚ
  wfxHours : ℚ
  discrepancy : ℚ
  workTravel : ℚ
  personalTravel : ℚ
  totalDistance : ℚ
  status : List Char
  alerts : List TradAlert
  deriving DecidableEq, Repr

/-- The per-day body of `performTraditionalComparison`
(timesheetComparison.js:463-528): status classification and alert pushes
for one date. -/
def tradDay (acfg : AlertConfig) (date : List Char) (csv : CsvDay)
    (wfx : Option WfxDay) : TradDayComparison :=
  let csvHours := csv.netWorkHours
  let wfxHours := (wfx.map (·.totalHours)).getD 0
  let discrepancy := csvHours - wfxHours
  let missing :=
    match wfx with
    | none => true
    | some w => w.totalHours = 0
  let statusAlerts : List Char × List TradAlert :=
    if missing then
      ("missing_wfx".data,
        if acfg.missingTimesheetAlert then
          [{ atype := "missing_timesheet".data, severity := none }]
        else [])
    else if |discrepancy| > acfg.timesheetDiscrepancyHours then
      ("discrepancy".data,
        [{ atype := "hours_discrepancy".data
           severity := some (if |discrepancy| > 2 then "high".data
             else "medium".data) }])
    else ("matched".data, [])
  let travelAlerts :=
    if csv.workTravelTime > acfg.unaccountedTravelMinutes then
      [{ atype := "unaccounted_travel".data, severity := some "medium".data }]
    else []
  let distanceAlerts :=
    if csv.totalDistance > acfg.dailyDistanceThreshold then
      [{ atype := "high_distance".data, severity := some "low".data }]
    else []
  { date := date
    csvHours := csvHours
    wfxHours := wfxHours
    discrepancy := discrepancy
    workTravel := csv.workTravelTime
    personalTravel := csv.personalTravelTime
    totalDistance := csv.totalDistance
    status := statusAlerts.1
    alerts := statusAlerts.2 ++ travelAlerts ++ distanceAlerts }

/-- The run-level summary of `performComparison`
(timesheetComparison.js:408-425), traditional and enhanced fields. -/
structure Summary where
  totalDays : ℕ
  matchedDays : ℕ
  discrepancyDays : ℕ
  missingWfxDays : ℕ
  totalCsvHours : ℚ
  totalWfxHours : ℚ
  totalDiscrepancyHours : ℚ
  totalUnaccountedTravel : ℚ
  accuracy : ℚ
  alerts : List TradAlert
  jobMatchAccuracy : ℚ
  locationMatchAccuracy : ℚ
  timeMatchAccuracy : ℚ
  unmatchedJobs : ℕ
  unmatchedTrips : ℕ
  deriving DecidableEq, Repr

/-- The zero-initialized summary. -/
def initSummary : Summary :=
  { totalDays := 0, matchedDays := 0, discrepancyDays := 0
    missingWfxDays := 0, totalCsvHours := 0, totalWfxHours := 0
    totalDiscrepancyHours := 0, totalUnaccountedTravel := 0
    accuracy := 0, alerts := [], jobMatchAccuracy := 0
    locationMatchAccuracy := 0, timeMatchAccuracy := 0
    unmatchedJobs := 0, unmatchedTrips := 0 }

/-- Fold one day into the traditional summary counters
(timesheetComparison.js:482-517). -/
def tradFoldSummary (acfg : AlertConfig) (s : Summary)
    (dc : TradDayComparison) : Summary :=
  let s :=
    { s with
      totalCsvHours := s.totalCsvHours + dc.csvHours
      totalWfxHours := s.totalWfxHours + dc.wfxHours
      totalDiscrepancyHours := s.totalDiscrepancyHours + |dc.discrepancy| }
  let s :=
    if dc.status = "missing_wfx".data then
      { s with missingWfxDays := s.missingWfxDays + 1 }
    else if dc.status = "discrepancy".data then
      { s with discrepancyDays := s.discrepancyDays + 1 }
    else { s with matchedDays := s.matchedDays + 1 }
  if dc.workTravel > acfg.unaccountedTravelMinutes then
    { s with totalUnaccountedTravel := s.totalUnaccountedTravel + dc.workTravel }
  else s

/-- Result of the traditional pass. -/
structure TradResult where
  days : List (List Char × TradDayComparison)
  summary : Summary
  deriving DecidableEq, Repr

/-- One step of the `allDates.forEach` loop of
`performTraditionalComparison`. -/
def tradStep (wfxData : List (List Char × WfxDay)) (acfg : AlertConfig)
    (acc : TradResult) (day : List Char × CsvDay) : TradResult :=
  let dc := tradDay acfg day.1 day.2 (lookupDay wfxData day.1)
  { days := acc.days ++ [(day.1, dc)]
    summary := tradFoldSummary acfg acc.summary dc }

/-- `performTraditionalComparison` (timesheetComparison.js:459-535). -/
def performTraditionalComparison (csvData : List (List Char × CsvDay))
    (wfxData : List (List Char × WfxDay)) (acfg : AlertConfig) : TradResult :=
  let folded := csvData.foldl (tradStep wfxData acfg)
    { days := [], summary := { initSummary with totalDays := csvData.length } }
  let s := folded.summary
  { folded with summary :=
      { s with accuracy :=
          if s.totalDays > 0 then
            toFixed1 ((s.matchedDays : ℚ) / s.totalDays * 100)
          else 0 } }

/-! ### `performComparison` (timesheetComparison.js:404-454) -/

/-- `mergeEnhancedMetrics` (timesheetComparison.js:540-546). -/
def mergeEnhancedMetrics (s : Summary) (es : EnhancedSummary) : Summary :=
  { s with
    jobMatchAccuracy := es.locationMatchAccuracy
    locationMatchAccuracy := es.locationMatchAccuracy
    timeMatchAccuracy := es.timeMatchAccuracy
    unmatchedJobs := es.unmatchedWfxEntries
    unmatchedTrips := es.unmatchedTrips }

/-- `generateEnhancedAlerts` (timesheetComparison.js:551-611). -/
def generateEnhancedAlerts (s : Summary) (enh : EnhancedComparison) :
    Summary :=
  let a1 :=
    if enh.summary.locationMatchAccuracy < 70 then
      [{ atype := "low_location_accuracy".data
         severity := some "high".data }]
    else []
  let a2 :=
    if enh.summary.timeMatchAccuracy < 60 then
      [{ atype := "low_time_accuracy".data, severity := some "medium".data }]
    else []
  let a3 :=
    if enh.summary.unmatchedTrips > 0 then
      [{ atype := "unmatched_work_trips".data
         severity := some "medium".data }]
    else []
  let a4 :=
    if enh.summary.unmatchedWfxEntries > 0 then
      [{ atype := "unmatched_wfx_jobs".data, severity := some "medium".data }]
    else []
  let dayAlerts := enh.dailyComparisons.foldl
    (fun acc day =>
      let acc :=
        if (day.2.timeDiscrepancies.filter
              (fun d => d.severity = "high".data)).length > 0 then
          acc ++ [{ atype := "significant_time_discrepancy".data
                    severity := some "high".data }]
        else acc
      if (day.2.locationIssues.filter
            (fun l => l.severity = "high".data)).length > 0 then
        acc ++ [{ atype := "significant_location_discrepancy".data
                  severity := some "high".data }]
      else acc)
    ([] : List TradAlert)
  { s with alerts := s.alerts ++ a1 ++ a2 ++ a3 ++ a4 ++ dayAlerts }

/-- The full `performComparison` result. -/
structure Comparison where
  dailyComparisons : List (List Char × TradDayComparison)
  enhancedComparisons : List (List Char × DayComparison)
  summary : Summary
  deriving DecidableEq, Repr

/-- `performComparison` (timesheetComparison.js:404-454): traditional pass
first, then — when there is WFX data — the enhanced comparison inside a
try/catch whose catch falls back to the traditional result only. -/
def performComparison (csvData : List (List Char × CsvDay))
    (wfxData : List (List Char × WfxDay)) (cfg : MatchConfig)
    (acfg : AlertConfig) (getJob : List Char → Option RawJob) : Comparison :=
  let base := performTraditionalComparison csvData wfxData acfg
  if wfxData.length > 0 then
    match performEnhancedComparison csvData wfxData cfg getJob with
    | .error _ =>
      { dailyComparisons := base.days
        enhancedComparisons := []
        summary := base.summary }
    | .ok enh =>
      { dailyComparisons := base.days
        enhancedComparisons := enh.dailyComparisons
        summary := generateEnhancedAlerts
          (mergeEnhancedMetrics base.summary enh.summary) enh }
  else
    { dailyComparisons := base.days
      enhancedComparisons := []
      summary := base.summary }

/-! ### Spec-side comparison functions (stated from the spec's words, to be
compared with the source-derived definitions) -/

/-- Interval length of the trip, as `calculateTimeMatch` derives it. -/
def tripIntervalLen (trip : Trip) : ℚ :=
  timeToMinutes trip.finish - timeToMinutes trip.started

/-- Interval length of the entry, as `calculateTimeMatch` derives it. -/
def entryIntervalLen (wfxEntry : WfxEntry) : ℚ := jsOrQ wfxEntry.minutes 60

/-- Overlap in minutes between the trip interval and the entry interval,
shared by both formulations of the time score. -/
def intervalOverlap (trip : Trip) (wfxEntry : WfxEntry) : ℚ :=
  let tripStart := timeToMinutes trip.started
  let tripEnd := timeToMinutes trip.finish
  let wfxStart := timeToMinutes (wfxEntry.startTime.getD (9, 0))
  let wfxEnd := wfxStart + jsOrQ wfxEntry.minutes 60
  max 0 (min tripEnd wfxEnd - max tripStart wfxStart)

/-- The time score as the claim words it: overlap divided by the span of
the union of the two intervals (latest end minus earliest start). -/
def specTimeScoreUnion (trip : Trip) (wfxEntry : WfxEntry) : ℚ :=
  let tripStart := timeToMinutes trip.started
  let tripEnd := timeToMinutes trip.finish
  let wfxStart := timeToMinutes (wfxEntry.startTime.getD (9, 0))
  let wfxEnd := wfxStart + jsOrQ wfxEntry.minutes 60
  let unionSpan := max tripEnd wfxEnd - min tripStart wfxStart
  if unionSpan > 0 then intervalOverlap trip wfxEntry / unionSpan else 0

/-- The time score as the code computes it, in the amended claim's words:
overlap divided by the larger of the two interval lengths. -/
def specTimeScoreMaxLen (trip : Trip) (wfxEntry : WfxEntry) : ℚ :=
  let longer := max (tripIntervalLen trip) (entryIntervalLen wfxEntry)
  if longer > 0 then intervalOverlap trip wfxEntry / longer else 0

/-- A share of `part` in `whole`, as a percentage rounded to one decimal,
0 when `whole` is 0 — the amended accuracy-metric formula. -/
def specRoundedShare (part whole : ℕ) : ℚ :=
  if 0 < whole then toFixed1 ((part : ℚ) / (whole : ℚ) * 100) else 0

/-! ### Concrete example inputs for counterexamples and witnesses -/

/-- A work trip 09:00-10:00 to "123 Main St". -/
def exTripA : Trip :=
  { started := some (9, 0)
    finish := some (10, 0)
    drivingTime := none
    addressTo := some "123 Main St".data
    classification := "work".data }

/-- A second work trip 09:05-10:05 to the same address. -/
def exTripB : Trip :=
  { started := some (9, 5)
    finish := some (10, 5)
    drivingTime := none
    addressTo := some "123 Main St".data
    classification := "work".data }

/-- A timesheet entry for a job at "123 Main St", 09:00, 60 minutes, with
resolved job details. -/
def exEntry1 : WfxEntry :=
  { id := some "E1".data
    jobId := some "J1".data
    startTime := some (9, 0)
    minutes := some 60
    jobDetails := some { address := some "123 Main St".data } }

/-- A timesheet entry with no job id, so `matchJobsForDay` attaches
`jobDetails = null`. -/
def exEntryNoJob : WfxEntry :=
  { id := some "E2".data
    jobId := none
    startTime := none
    minutes := some 30
    jobDetails := none }

/-- The raw form of `exEntryNoJob`, as a day-level input. -/
def exRawEntryNoJob : RawWfxEntry :=
  { id := some "E2".data
    jobId := none
    startTime := none
    minutes := some 30 }

/-- A trip 09:00-10:00 for the time-score counterexample. -/
def exTrip4 : Trip := exTripA

/-- An entry starting 09:30 for 60 minutes: overlap 30, union span 90,
larger interval length 60. -/
def exEntry4 : WfxEntry :=
  { id := some "E4".data
    jobId := some "J4".data
    startTime := some (9, 30)
    minutes := some 60
    jobDetails := some { address := some "9 Elsewhere Rd".data } }

/-- A CSV day with one work trip, used as the failing day of the C3 run. -/
def exCsvDayFail : CsvDay :=
  { netWorkHours := 8
    trips := [exTripA]
    workTravelTime := 0
    personalTravelTime := 0
    totalDistance := 0 }

/-- A CSV day with no trips, used as the healthy second day of the C3 run. -/
def exCsvDayOk : CsvDay :=
  { netWorkHours := 4
    trips := []
    workTravelTime := 0
    personalTravelTime := 0
    totalDistance := 0 }

/-- Two-day CSV input: the first day will throw inside the fuzzy pass. -/
def exCsvFail : List (List Char × CsvDay) :=
  [("2025-01-06".data, exCsvDayFail), ("2025-01-07".data, exCsvDayOk)]

/-- WFX input for the failing run: day one has a single entry with no job
id (so its `jobDetails` is `null`); day two has no WFX data at all. -/
def exWfxFail : List (List Char × WfxDay) :=
  [("2025-01-06".data, { totalHours := 5, entries := [exRawEntryNoJob] })]

/-- External job lookup for the examples: every id resolves to
"123 Main St". -/
def exGetJob : List Char → Option RawJob :=
  fun _ => some { address := some "123 Main St".data }

/-- CSV day for the C5 scenario: 8 net work hours, no travel alerts. -/
def exCsv5 : CsvDay :=
  { netWorkHours := 8
    trips := []
    workTravelTime := 0
    personalTravelTime := 0
    totalDistance := 0 }

/-- WFX day for the C5 scenario: 6.0 recorded hours. -/
def exWfx5 : WfxDay := { totalHours := 6, entries := [] }

/-- The unmatched entries of a `performJobMatching` outcome. -/
def unmatchedWfxOf (r : Except Unit MatchResults) : List WfxEntry :=
  match r with
  | .ok res => res.unmatchedWfxEntries
  | .error _ => []

/-- Replace only the job-type weight of a configuration. -/
def setJobTypeWeight (cfg : MatchConfig) (w : ℚ) : MatchConfig :=
  { cfg with jobTypeWeight := w }

/-- The tags `calculateMatchScore` can ever push (the job-type tag is
unreachable and `fuzzy_match` is appended only by the fuzzy pass). -/
def coreTags : List (List Char) :=
  ["exact_location".data, "approximate_location".data, "time_overlap".data,
   "approximate_time".data, "duration_match".data]

/-- The score of the example confident pair, used by witnesses. -/
def exScore1 : Score :=
  calculateMatchScoreJD exTripA exEntry1
    { address := some "123 Main St".data } defaultJobMatching

/-- The match the engine commits on the one-trip/one-entry example run. -/
def exMatchInfo1 : MatchInfo :=
  { trip := exTripA
    wfxEntry := exEntry1
    confidence := 4/5
    matchCriteria := ["exact_location".data, "time_overlap".data]
    locationMatch := 1
    timeMatch := 1
    distanceKm := some 0
    timeOffsetMinutes := 0 }

end WfxSpec

namespace WfxSpec

/-! ## Theorems -/

/-! ### Lemmas on the address-normalization pipeline -/


lemma not_isW_of_isS (c : Char) (h : isS c = true) : isW c = false := by
  simp only [isS, Bool.or_eq_true, beq_iff_eq] at h
  simp only [isW, Bool.or_eq_false_iff, Bool.and_eq_false_iff,
    decide_eq_false_iff_not, beq_eq_false_iff_ne, ne_eq]
  omega

lemma isW_of_isWS_not_S (c : Char) (h : isWS c = true) (h2 : isS c = false) :
    isW c = true := by
  simp only [isWS, h2, Bool.or_false] at h
  exact h

lemma wGo_nil (cur : List Char) :
    wGo cur [] = if cur.isEmpty then [] else [cur.reverse] := rfl

lemma wGo_cons_W {c : Char} (h : isW c = true) (cur l : List Char) :
    wGo cur (c :: l) = wGo (c :: cur) l := by
  simp [wGo, h]

lemma wGo_cons_notW {c : Char} (h : isW c = false) (cur l : List Char) :
    wGo cur (c :: l) =
      (if cur.isEmpty then [] else [cur.reverse]) ++ wGo [] l := by
  simp [wGo, h]

lemma wGo_append_run : ∀ (w cur rest : List Char), w.all isW = true →
    wGo cur (w ++ rest) = wGo (w.reverse ++ cur) rest := by
  intro w
  induction w with
  | nil => intro cur rest _; rfl
  | cons c w' ih =>
    intro cur rest hall
    simp only [List.all_cons, Bool.and_eq_true] at hall
    rw [List.cons_append, wGo_cons_W hall.1, ih _ _ hall.2]
    simp

lemma rbGo_cons_W {c : Char} (h : isW c = true) (cur l : List Char) :
    rbGo cur (c :: l) = rbGo (c :: cur) l := by
  simp [rbGo, h]

lemma rbGo_cons_notW {c : Char} (h : isW c = false) (cur l : List Char) :
    rbGo cur (c :: l) = emitRun cur ++ c :: rbGo [] l := by
  simp [rbGo, h]

lemma rbGo_append_run : ∀ (w cur rest : List Char), w.all isW = true →
    rbGo cur (w ++ rest) = rbGo (w.reverse ++ cur) rest := by
  intro w
  induction w with
  | nil => intro cur rest _; rfl
  | cons c w' ih =>
    intro cur rest hall
    simp only [List.all_cons, Bool.and_eq_true] at hall
    rw [List.cons_append, rbGo_cons_W hall.1, ih _ _ hall.2]
    simp


lemma wGo_single_word (w : List Char) (h : w.all isW = true) :
    wGo [] w = if w.isEmpty then [] else [w] := by
  have := wGo_append_run w [] [] h
  rw [List.append_nil] at this
  rw [this, wGo_nil]
  simp

lemma wGo_filter_banned : ∀ (l cur : List Char), cur.all isW = true →
    wGo [] (rbGo cur l) =
      (wGo cur l).filter (fun w => decide (w ∉ bannedWords)) := by
  intro l
  induction l with
  | nil =>
    intro cur hcur
    show wGo [] (emitRun cur) = _
    rw [wGo_nil]
    unfold emitRun
    by_cases he : cur = []
    · subst he; simp [wGo_nil, bannedWords]
    · have he2 : cur.isEmpty = false := by simpa [List.isEmpty_eq_false] using he
      rw [he2]
      split
      · next hb => simp [List.filter_cons, hb, wGo_nil]
      · next hb =>
        rw [wGo_single_word _ (by simpa [List.all_reverse] using hcur)]
        simp [List.filter_cons, hb, he]
  | cons c cs ih =>
    intro cur hcur
    by_cases hc : isW c = true
    · rw [rbGo_cons_W hc, wGo_cons_W hc, ih _ (by simp [hcur, hc])]
    · have hc' : isW c = false := by revert hc; cases isW c <;> simp
      rw [rbGo_cons_notW hc', wGo_cons_notW hc']
      unfold emitRun
      rw [List.filter_append]
      by_cases he : cur = []
      · subst he
        rw [if_neg (by simp [bannedWords] : ¬(([] : List Char).reverse ∈ bannedWords))]
        rw [List.reverse_nil, List.nil_append, wGo_cons_notW hc', ih [] rfl]
        simp
      · have he2 : cur.isEmpty = false := by simpa [List.isEmpty_eq_false] using he
        rw [he2]
        split
        · next hb =>
          rw [List.nil_append, wGo_cons_notW hc', ih [] rfl]
          simp [List.filter_cons, hb]
        · next hb =>
          rw [show (cur.reverse ++ c :: rbGo [] cs) =
              cur.reverse ++ (c :: rbGo [] cs) by rfl,
            wGo_append_run _ _ _ (by simpa [List.all_reverse] using hcur),
            List.append_nil, List.reverse_reverse,
            wGo_cons_notW hc', he2, ih [] rfl]
          simp [List.filter_cons, hb]

lemma wordsOf_removeBanned (l : List Char) :
    wordsOf (removeBanned l) =
      (wordsOf l).filter (fun w => decide (w ∉ bannedWords)) :=
  wGo_filter_banned l [] rfl

lemma mem_emit {w cur : List Char} :
    w ∈ (if cur.isEmpty = true then ([] : List (List Char)) else [cur.reverse]) ↔
      cur ≠ [] ∧ w = cur.reverse := by
  cases cur <;> simp

lemma wGo_words_shape : ∀ (l cur : List Char), cur.all isW = true →
    ∀ w ∈ wGo cur l, w ≠ [] ∧ w.all isW = true := by
  intro l
  induction l with
  | nil =>
    intro cur hcur w hw
    rw [wGo_nil, mem_emit] at hw
    obtain ⟨hne, rfl⟩ := hw
    exact ⟨by simpa using hne, by simpa [List.all_reverse] using hcur⟩
  | cons c cs ih =>
    intro cur hcur w hw
    by_cases hc : isW c = true
    · rw [wGo_cons_W hc] at hw
      exact ih _ (by simp [hcur, hc]) w hw
    · have hc' : isW c = false := by revert hc; cases isW c <;> simp
      rw [wGo_cons_notW hc'] at hw
      rcases List.mem_append.mp hw with h1 | h2
      · rw [mem_emit] at h1
        obtain ⟨hne, rfl⟩ := h1
        exact ⟨by simpa using hne, by simpa [List.all_reverse] using hcur⟩
      · exact ih [] rfl w h2

lemma wGo_words_mem : ∀ (l cur w : List Char), w ∈ wGo cur l →
    ∀ c ∈ w, c ∈ l ∨ c ∈ cur := by
  intro l
  induction l with
  | nil =>
    intro cur w hw c hc
    rw [wGo_nil, mem_emit] at hw
    obtain ⟨_, rfl⟩ := hw
    exact Or.inr (List.mem_reverse.mp hc)
  | cons a cs ih =>
    intro cur w hw c hc
    by_cases ha : isW a = true
    · rw [wGo_cons_W ha] at hw
      rcases ih _ w hw c hc with h | h
      · exact Or.inl (List.mem_cons_of_mem _ h)
      · rcases List.mem_cons.mp h with rfl | h2
        · exact Or.inl (List.mem_cons_self _ _)
        · exact Or.inr h2
    · have ha' : isW a = false := by revert ha; cases isW a <;> simp
      rw [wGo_cons_notW ha'] at hw
      rcases List.mem_append.mp hw with h1 | h2
      · rw [mem_emit] at h1
        obtain ⟨_, rfl⟩ := h1
        exact Or.inr (List.mem_reverse.mp hc)
      · rcases ih [] w h2 c hc with h | h
        · exact Or.inl (List.mem_cons_of_mem _ h)
        · simp at h

lemma wordsOf_joinWords : ∀ (ws : List (List Char)),
    (∀ w ∈ ws, w ≠ [] ∧ w.all isW = true) → wordsOf (joinWords ws) = ws := by
  intro ws
  induction ws with
  | nil => intro _; rfl
  | cons w ws' ih =>
    intro hws
    obtain ⟨hne, hall⟩ := hws w (List.mem_cons_self _ _)
    cases ws' with
    | nil =>
      show wGo [] (joinWords [w]) = [w]
      rw [show joinWords [w] = w from rfl, wGo_single_word w hall]
      simp [List.isEmpty_eq_false.mpr hne]
    | cons w2 ws'' =>
      show wGo [] (joinWords (w :: w2 :: ws'')) = w :: w2 :: ws''
      rw [show joinWords (w :: w2 :: ws'') = w ++ ' ' :: joinWords (w2 :: ws'')
          from rfl,
        wGo_append_run _ _ _ hall, List.append_nil,
        wGo_cons_notW (by decide : isW ' ' = false)]
      rw [show wGo [] (joinWords (w2 :: ws'')) = w2 :: ws'' from
        ih (fun x hx => hws x (List.mem_cons_of_mem _ hx))]
      have : (w.reverse).isEmpty = false := by
        simpa [List.isEmpty_eq_false] using hne
      simp [this]

lemma mem_joinWords : ∀ (ws : List (List Char)) (c : Char),
    c ∈ joinWords ws → c = ' ' ∨ ∃ w ∈ ws, c ∈ w := by
  intro ws
  induction ws with
  | nil => intro c hc; simp [joinWords] at hc
  | cons w ws' ih =>
    intro c hc
    cases ws' with
    | nil => exact Or.inr ⟨w, List.mem_cons_self _ _, hc⟩
    | cons w2 ws'' =>
      rw [show joinWords (w :: w2 :: ws'') = w ++ ' ' :: joinWords (w2 :: ws'')
          from rfl] at hc
      rcases List.mem_append.mp hc with h | h
      · exact Or.inr ⟨w, List.mem_cons_self _ _, h⟩
      · rcases List.mem_cons.mp h with rfl | h2
        · exact Or.inl rfl
        · rcases ih c h2 with h3 | ⟨w3, hw3, hc3⟩
          · exact Or.inl h3
          · exact Or.inr ⟨w3, List.mem_cons_of_mem _ hw3, hc3⟩

lemma joinWords_ends_in_word : ∀ (ws : List (List Char)), ws ≠ [] →
    (∀ w ∈ ws, w ≠ [] ∧ w.all isW = true) →
    ∃ a wlast, joinWords ws = a ++ wlast ∧ wlast ≠ [] ∧
      wlast.all isW = true := by
  intro ws
  induction ws with
  | nil => intro h; exact absurd rfl h
  | cons w ws' ih =>
    intro _ hws
    cases ws' with
    | nil =>
      exact ⟨[], w, by simp [joinWords], (hws w (List.mem_cons_self _ _)).1,
        (hws w (List.mem_cons_self _ _)).2⟩
    | cons w2 ws'' =>
      obtain ⟨a, wlast, heq, hne, hall⟩ :=
        ih (by simp) (fun x hx => hws x (List.mem_cons_of_mem _ hx))
      refine ⟨w ++ ' ' :: a, wlast, ?_, hne, hall⟩
      rw [show joinWords (w :: w2 :: ws'') = w ++ ' ' :: joinWords (w2 :: ws'')
          from rfl, heq]
      simp
lemma all_of_sublist {p : Char → Bool} {l t : List Char} (hs : t.Sublist l)
    (h : l.all p = true) : t.all p = true := by
  rw [List.all_eq_true] at h ⊢
  exact fun x hx => h x (hs.subset hx)

lemma toNat_ofNat_small (n : Nat) (h : n < 55296) : (Char.ofNat n).toNat = n := by
  have h2 : n.isValidChar := Or.inl (by omega)
  simp [Char.ofNat, h2, Char.ofNatAux, Char.toNat, UInt32.toNat]

lemma lowerChar_toNat (c : Char) :
    (lowerChar c).toNat =
      if 65 ≤ c.toNat ∧ c.toNat ≤ 90 then c.toNat + 32 else c.toNat := by
  unfold lowerChar
  split
  · rw [toNat_ofNat_small _ (by omega)]
  · rfl

lemma lowerChar_idem (c : Char) : lowerChar (lowerChar c) = lowerChar c := by
  unfold lowerChar
  split
  · next h =>
    rw [if_neg]
    rw [toNat_ofNat_small _ (by omega)]
    omega
  · rfl

lemma isW_lowerChar (c : Char) : isW (lowerChar c) = isW c := by
  simp only [isW, lowerChar_toNat]
  split
  · next h =>
    rw [Bool.eq_iff_iff]
    simp only [Bool.or_eq_true, Bool.and_eq_true, decide_eq_true_eq, beq_iff_eq]
    omega
  · rfl

lemma isS_lowerChar (c : Char) : isS (lowerChar c) = isS c := by
  simp only [isS, lowerChar_toNat]
  split
  · next h =>
    rw [Bool.eq_iff_iff]
    simp only [Bool.or_eq_true, beq_iff_eq]
    omega
  · rfl

lemma isWS_lowerChar (c : Char) : isWS (lowerChar c) = isWS c := by
  simp [isWS, isW_lowerChar, isS_lowerChar]

lemma not_isS_of_isW (c : Char) (h : isW c = true) : isS c = false := by
  simp only [isW, Bool.or_eq_true, Bool.and_eq_true, decide_eq_true_eq,
    beq_iff_eq] at h
  simp only [isS, Bool.or_eq_false_iff, beq_eq_false_iff_ne, ne_eq]
  omega

lemma dropWhile_head_false {p : Char → Bool} :
    ∀ {l c t}, List.dropWhile p l = c :: t → p c = false := by
  intro l
  induction l with
  | nil => intro c t h; simp at h
  | cons a as ih =>
    intro c t h
    by_cases ha : p a = true
    · rw [List.dropWhile_cons_of_pos ha] at h
      exact ih h
    · rw [List.dropWhile_cons_of_neg ha] at h
      cases h
      simp only [Bool.not_eq_true] at ha
      exact ha

lemma cwGo_true_dropWhile : ∀ (cs : List Char),
    cwGo true cs = cwGo false (cs.dropWhile isS) := by
  intro cs
  induction cs with
  | nil => rfl
  | cons c cs' ih =>
    by_cases hc : isS c = true
    · rw [List.dropWhile_cons_of_pos hc, ← ih]
      simp [cwGo, hc]
    · have hc' : isS c = false := by revert hc; cases isS c <;> simp
      rw [List.dropWhile_cons_of_neg (by simp [hc'])]
      simp [cwGo, hc']

lemma cwGo_append_word : ∀ (w rest : List Char), w.all isW = true →
    cwGo false (w ++ rest) = w ++ cwGo false rest := by
  intro w
  induction w with
  | nil => intro rest _; rfl
  | cons c w' ih =>
    intro rest hall
    simp only [List.all_cons, Bool.and_eq_true] at hall
    have hs : isS c = false := not_isS_of_isW c hall.1
    rw [List.cons_append]
    show cwGo false (c :: (w' ++ rest)) = _
    simp only [cwGo, hs, Bool.false_eq_true, if_false]
    rw [ih _ hall.2]
    rfl

lemma ldropWs_cons_notS {c : Char} (h : isS c = false) (t : List Char) :
    ldropWs (c :: t) = c :: t := by
  unfold ldropWs
  exact List.dropWhile_cons_of_neg (by simp [h])

lemma trimWs_space_cons (z : List Char) : trimWs (' ' :: z) = trimWs z := by
  unfold trimWs ldropWs
  rw [List.dropWhile_cons_of_pos (by decide : isS ' ' = true)]

lemma dropWhile_append_of_all {p : Char → Bool} :
    ∀ {s : List Char}, s.all p = true → ∀ (t : List Char),
      List.dropWhile p (s ++ t) = List.dropWhile p t := by
  intro s
  induction s with
  | nil => intro _ t; rfl
  | cons a as ih =>
    intro hall t
    simp only [List.all_cons, Bool.and_eq_true] at hall
    rw [List.cons_append, List.dropWhile_cons_of_pos hall.1, ih hall.2]

lemma rdropWs_append_spaces {t : List Char} (ht : t.all isS = true)
    (a : List Char) : rdropWs (a ++ t) = rdropWs a := by
  unfold rdropWs
  rw [List.reverse_append,
    dropWhile_append_of_all (by simpa [List.all_reverse] using ht)]

lemma rdropWs_append_word {w : List Char} (hw : w.all isW = true)
    (hne : w ≠ []) (a : List Char) : rdropWs (a ++ w) = a ++ w := by
  unfold rdropWs
  rw [List.reverse_append]
  cases hwr : w.reverse with
  | nil => exact absurd (by simpa using hwr) hne
  | cons c t =>
    have hc : isW c = true := by
      have : c ∈ w.reverse := by rw [hwr]; exact List.mem_cons_self _ _
      exact (List.all_eq_true.mp hw) c (List.mem_reverse.mp this)
    rw [List.cons_append, List.dropWhile_cons_of_neg
      (by simp [not_isS_of_isW c hc])]
    rw [← List.cons_append, ← hwr]
    simp

lemma rdropWs_word {w : List Char} (hw : w.all isW = true) :
    rdropWs w = w := by
  cases hne : w with
  | nil => rfl
  | cons c t =>
    rw [← hne, show w = [] ++ w by rfl]
    exact rdropWs_append_word hw (by rw [hne]; simp) []

lemma wordsOf_cons_notW {c : Char} (h : isW c = false) (l : List Char) :
    wordsOf (c :: l) = wordsOf l := by
  unfold wordsOf
  rw [wGo_cons_notW h]
  rfl

lemma wordsOf_dropWhile_S : ∀ (l : List Char),
    wordsOf (l.dropWhile isS) = wordsOf l := by
  intro l
  induction l with
  | nil => rfl
  | cons c cs ih =>
    by_cases hc : isS c = true
    · rw [List.dropWhile_cons_of_pos hc, ih,
        wordsOf_cons_notW (not_isW_of_isS c hc)]
    · rw [List.dropWhile_cons_of_neg (by simp [hc])]

lemma rdropWs_decomp (z : List Char) :
    ∃ t, z = rdropWs z ++ t ∧ t.all isS = true := by
  refine ⟨(z.reverse.takeWhile isS).reverse, ?_, by
    rw [List.all_reverse]; exact List.all_takeWhile⟩
  unfold rdropWs
  conv_lhs => rw [← z.reverse_reverse,
    ← List.takeWhile_append_dropWhile (p := isS) (l := z.reverse)]
  rw [List.reverse_append]

lemma wGo_ne_nil : ∀ (l cur : List Char), cur ≠ [] → wGo cur l ≠ [] := by
  intro l
  induction l with
  | nil =>
    intro cur h
    rw [wGo_nil, List.isEmpty_eq_false.mpr h]
    simp
  | cons c cs ih =>
    intro cur h
    by_cases hc : isW c = true
    · rw [wGo_cons_W hc]
      exact ih _ (by simp)
    · have hc' : isW c = false := by revert hc; cases isW c <;> simp
      rw [wGo_cons_notW hc', List.isEmpty_eq_false.mpr h]
      simp

lemma trim_collapse_aux : ∀ (n : Nat) (y : List Char), y.length ≤ n →
    y.all isWS = true → trimWs (collapseWs y) = joinWords (wordsOf y) := by
  intro n
  induction n with
  | zero =>
    intro y hlen _
    rw [List.length_eq_zero.mp (Nat.le_zero.mp hlen)]
    rfl
  | succ n ih =>
    intro y hlen hall
    cases y with
    | nil => rfl
    | cons c cs =>
      simp only [List.all_cons, Bool.and_eq_true] at hall
      by_cases hc : isS c = true
      · have h1 : collapseWs (c :: cs) = ' ' :: cwGo true cs := by
          simp [collapseWs, cwGo, hc]
        rw [h1, trimWs_space_cons, cwGo_true_dropWhile]
        have hlen2 : (cs.dropWhile isS).length ≤ n := by
          have := (List.dropWhile_sublist (l := cs) isS).length_le
          simp only [List.length_cons] at hlen
          omega
        rw [show cwGo false (cs.dropWhile isS) = collapseWs (cs.dropWhile isS)
            from rfl,
          ih _ hlen2 (all_of_sublist (List.dropWhile_sublist isS) hall.2),
          wordsOf_dropWhile_S, wordsOf_cons_notW (not_isW_of_isS c hc)]
      · have hcW : isW c = true := isW_of_isWS_not_S c hall.1
          (by revert hc; cases isS c <;> simp)
        have hsplit : c :: cs =
            (c :: cs.takeWhile isW) ++ cs.dropWhile isW := by
          rw [List.cons_append, List.takeWhile_append_dropWhile]
        have hwall : (c :: cs.takeWhile isW).all isW = true := by
          simp only [List.all_cons, Bool.and_eq_true]
          exact ⟨hcW, List.all_takeWhile⟩
        rw [hsplit]
        rw [show collapseWs ((c :: cs.takeWhile isW) ++ cs.dropWhile isW) =
            cwGo false ((c :: cs.takeWhile isW) ++ cs.dropWhile isW) from rfl,
          cwGo_append_word _ _ hwall]
        rw [show wordsOf ((c :: cs.takeWhile isW) ++ cs.dropWhile isW) =
            wGo [] ((c :: cs.takeWhile isW) ++ cs.dropWhile isW) from rfl,
          wGo_append_run _ _ _ hwall, List.append_nil]
        cases hrest : cs.dropWhile isW with
        | nil =>
          rw [wGo_nil]
          rw [show ((c :: cs.takeWhile isW).reverse).isEmpty = false by simp]
          simp only [Bool.false_eq_true, if_false, List.reverse_reverse]
          rw [show cwGo false [] = [] from rfl, List.append_nil]
          unfold trimWs
          rw [ldropWs_cons_notS (not_isS_of_isW c hcW),
            rdropWs_word hwall]
          rfl
        | cons r rest2 =>
          have hrW : isW r = false := dropWhile_head_false hrest
          have hrest_all : (r :: rest2).all isWS = true := by
            rw [← hrest]
            exact all_of_sublist (List.dropWhile_sublist isW) hall.2
          have hrS : isS r = true := by
            simp only [List.all_cons, Bool.and_eq_true] at hrest_all
            have h3 := hrest_all.1
            simp only [isWS, hrW, Bool.false_or] at h3
            exact h3
          rw [wGo_cons_notW hrW]
          rw [show ((c :: cs.takeWhile isW).reverse).isEmpty = false by simp]
          simp only [Bool.false_eq_true, if_false, List.reverse_reverse]
          have h2 : cwGo false (r :: rest2) = ' ' :: cwGo true rest2 := by
            simp [cwGo, hrS]
          rw [h2, cwGo_true_dropWhile]
          have hlen3 : (rest2.dropWhile isS).length ≤ n := by
            have s1 := (List.dropWhile_sublist (l := rest2) isS).length_le
            have s2 := (List.dropWhile_sublist (l := cs) isW).length_le
            rw [hrest] at s2
            simp only [List.length_cons] at hlen s2
            omega
          have hall3 : (rest2.dropWhile isS).all isWS = true := by
            refine all_of_sublist (List.dropWhile_sublist isS) ?_
            simp only [List.all_cons, Bool.and_eq_true] at hrest_all
            exact hrest_all.2
          have ihx := ih _ hlen3 hall3
          rw [show cwGo false (rest2.dropWhile isS) =
              collapseWs (rest2.dropWhile isS) from rfl]
          rw [show wGo [] rest2 = wordsOf rest2 from rfl,
            ← wordsOf_dropWhile_S rest2]
          cases hu : rest2.dropWhile isS with
          | nil =>
            rw [show wordsOf ([] : List Char) = [] from rfl, List.append_nil]
            rw [show joinWords [c :: cs.takeWhile isW] =
                c :: cs.takeWhile isW from rfl]
            rw [show collapseWs [] = [] from rfl]
            unfold trimWs
            rw [List.cons_append, ldropWs_cons_notS (not_isS_of_isW c hcW),
              ← List.cons_append]
            rw [rdropWs_append_spaces (by decide) _, rdropWs_word hwall]
          | cons u0 u' =>
            have hu0S : isS u0 = false := dropWhile_head_false hu
            have hu0W : isW u0 = true := by
              have hmem : (u0 :: u').all isWS = true := by rw [← hu]; exact hall3
              simp only [List.all_cons, Bool.and_eq_true] at hmem
              exact isW_of_isWS_not_S u0 hmem.1 hu0S
            have hwords_ne : wordsOf (u0 :: u') ≠ [] := by
              unfold wordsOf
              rw [wGo_cons_W hu0W]
              exact wGo_ne_nil u' [u0] (by simp)
            have hshapes : ∀ w ∈ wordsOf (u0 :: u'),
                w ≠ [] ∧ w.all isW = true :=
              wGo_words_shape (u0 :: u') [] rfl
            -- collapseWs (u0 :: u') has no leading space
            have hcol : collapseWs (u0 :: u') = u0 :: cwGo false u' := by
              simp [collapseWs, cwGo, hu0S]
            -- trimWs of it equals joinWords of its words, with no left trim
            have hldrop : ldropWs (collapseWs (u0 :: u')) =
                collapseWs (u0 :: u') := by
              rw [hcol]
              exact ldropWs_cons_notS hu0S _
            rw [hu] at ihx
            have hrd : rdropWs (collapseWs (u0 :: u')) =
                joinWords (wordsOf (u0 :: u')) := by
              have h5 := ihx
              unfold trimWs at h5
              rw [hldrop] at h5
              exact h5
            obtain ⟨t, hdec, htS⟩ := rdropWs_decomp (collapseWs (u0 :: u'))
            rw [hrd] at hdec
            obtain ⟨a, wlast, hJ, hlne, hlall⟩ :=
              joinWords_ends_in_word _ hwords_ne hshapes
            -- final computation
            rw [hdec]
            unfold trimWs
            rw [List.cons_append, ldropWs_cons_notS (not_isS_of_isW c hcW),
              ← List.cons_append]
            rw [show ((c :: cs.takeWhile isW) ++
                ' ' :: (joinWords (wordsOf (u0 :: u')) ++ t)) =
              (((c :: cs.takeWhile isW) ++
                ' ' :: joinWords (wordsOf (u0 :: u'))) ++ t) by simp]
            rw [rdropWs_append_spaces htS]
            rw [hJ]
            rw [show ((c :: cs.takeWhile isW) ++ ' ' :: (a ++ wlast)) =
              (((c :: cs.takeWhile isW) ++ ' ' :: a) ++ wlast) by simp]
            rw [rdropWs_append_word hlall hlne]
            cases hws : wordsOf (u0 :: u') with
            | nil => exact absurd hws hwords_ne
            | cons v vs =>
              rw [hws] at hJ
              rw [List.singleton_append]
              rw [show joinWords ((c :: cs.takeWhile isW) :: v :: vs) =
                (c :: cs.takeWhile isW) ++ ' ' :: joinWords (v :: vs)
                from rfl, hJ]
              simp

lemma trim_collapse (y : List Char) (h : y.all isWS = true) :
    trimWs (collapseWs y) = joinWords (wordsOf y) :=
  trim_collapse_aux y.length y le_rfl h

lemma mem_rbGo : ∀ (l cur : List Char) (c : Char), c ∈ rbGo cur l →
    c ∈ l ∨ c ∈ cur := by
  intro l
  induction l with
  | nil =>
    intro cur c hc
    have hc2 : c ∈ emitRun cur := hc
    unfold emitRun at hc2
    split at hc2
    · simp at hc2
    · exact Or.inr (List.mem_reverse.mp hc2)
  | cons a cs ih =>
    intro cur c hc
    by_cases ha : isW a = true
    · rw [rbGo_cons_W ha] at hc
      rcases ih _ c hc with h | h
      · exact Or.inl (List.mem_cons_of_mem _ h)
      · rcases List.mem_cons.mp h with rfl | h2
        · exact Or.inl (List.mem_cons_self _ _)
        · exact Or.inr h2
    · have ha' : isW a = false := by revert ha; cases isW a <;> simp
      rw [rbGo_cons_notW ha'] at hc
      rcases List.mem_append.mp hc with h1 | h2
      · unfold emitRun at h1
        split at h1
        · simp at h1
        · exact Or.inr (List.mem_reverse.mp h1)
      · rcases List.mem_cons.mp h2 with rfl | h3
        · exact Or.inl (List.mem_cons_self _ _)
        · rcases ih [] c h3 with h | h
          · exact Or.inl (List.mem_cons_of_mem _ h)
          · simp at h

lemma removeBanned_all_isWS {l : List Char} (h : l.all isWS = true) :
    (removeBanned l).all isWS = true := by
  rw [List.all_eq_true]
  intro c hc
  rcases mem_rbGo l [] c hc with h1 | h1
  · exact List.all_eq_true.mp h c h1
  · simp at h1

lemma filterChars_eq_self {l : List Char} (h : l.all isWS = true) :
    filterChars l = l :=
  List.filter_eq_self.mpr (List.all_eq_true.mp h)

lemma normalize_as_joinWords (l : List Char) (h : l.all isWS = true) :
    normalizeAddress l =
      joinWords ((wordsOf (l.map lowerChar)).filter
        (fun w => decide (w ∉ bannedWords))) := by
  have hmap : (l.map lowerChar).all isWS = true := by
    rw [List.all_eq_true]
    intro c hc
    rcases List.mem_map.mp hc with ⟨x, hx, rfl⟩
    rw [isWS_lowerChar]
    exact List.all_eq_true.mp h x hx
  unfold normalizeAddress
  rw [filterChars_eq_self (removeBanned_all_isWS hmap),
    trim_collapse _ (removeBanned_all_isWS hmap), wordsOf_removeBanned]

lemma map_eq_self_of_fixed {f : Char → Char} :
    ∀ {l : List Char}, (∀ c ∈ l, f c = c) → l.map f = l := by
  intro l
  induction l with
  | nil => intro _; rfl
  | cons a as ih =>
    intro h
    rw [List.map_cons, h a (List.mem_cons_self _ _),
      ih (fun c hc => h c (List.mem_cons_of_mem _ hc))]

lemma normalizeAddress_idem_of_all_isWS (l : List Char) (h : l.all isWS = true) :
    normalizeAddress (normalizeAddress l) = normalizeAddress l := by
  have h1 := normalize_as_joinWords l h
  set ws := (wordsOf (l.map lowerChar)).filter
    (fun w => decide (w ∉ bannedWords)) with hws
  have hshape : ∀ w ∈ ws, w ≠ [] ∧ w.all isW = true := by
    intro w hw
    exact wGo_words_shape (l.map lowerChar) [] rfl w
      (List.mem_of_mem_filter hw)
  have hnb : ∀ w ∈ ws, w ∉ bannedWords := by
    intro w hw
    have := List.of_mem_filter hw
    simpa using this
  have hfix : ∀ c ∈ joinWords ws, lowerChar c = c := by
    intro c hc
    rcases mem_joinWords ws c hc with rfl | ⟨w, hw, hcw⟩
    · decide
    · rcases wGo_words_mem (l.map lowerChar) [] w
        (List.mem_of_mem_filter hw) c hcw with h2 | h2
      · rcases List.mem_map.mp h2 with ⟨x, _, rfl⟩
        exact lowerChar_idem x
      · simp at h2
  have hall2 : (joinWords ws).all isWS = true := by
    rw [List.all_eq_true]
    intro c hc
    rcases mem_joinWords ws c hc with rfl | ⟨w, hw, hcw⟩
    · decide
    · have := (hshape w hw).2
      simp only [isWS, Bool.or_eq_true]
      exact Or.inl (List.all_eq_true.mp this c hcw)
  rw [h1]
  rw [normalize_as_joinWords _ hall2]
  rw [map_eq_self_of_fixed hfix]
  rw [wordsOf_joinWords ws hshape]
  rw [List.filter_eq_self.mpr (fun w hw => by simpa using hnb w hw)]

/-- C1.  The partition invariant fails on the code: with two work trips
09:00-10:00 and 09:05-10:05 to "123 Main St" and a single timesheet entry
E1 for a job at that address (09:00, 60 minutes), the confident pass scores
each trip against the full entry list rather than the remaining pool, so
both trips are committed and the single entry E1 appears in two JobMatches
while the unmatched entry list is empty. -/
theorem c1_entry_in_two_job_matches :
    (matchedOf (performJobMatching [exTripA, exTripB] [exEntry1]
        defaultJobMatching)).countP
      (fun m => m.wfxEntry.id = some "E1".data) = 2 ∧
    unmatchedWfxOf (performJobMatching [exTripA, exTripB] [exEntry1]
        defaultJobMatching) = [] :=
  of_decide_eq_true (by with_unfolding_all rfl)

/-- C2.  Scoring does raise an error because of a missing JobDetails
record: with one work trip and one entry whose `jobDetails` is `null` (no
job id), the confident pass skips the entry, but the fuzzy pass calls
`calculateMatchScore` on it without a guard and the day's matching throws
instead of placing the entry in `unmatchedWfxEntries`. -/
theorem c2_fuzzy_pass_throws_on_missing_job_details :
    performJobMatching [exTripA] [exEntryNoJob] defaultJobMatching =
      Except.error () := by
  with_unfolding_all rfl

/-- C3, counterexample.  A failure while matching one day aborts the whole
enhanced comparison: on a two-day input whose first day throws in the fuzzy
pass (an entry with `null` job details), `performEnhancedComparison`
returns an error instead of a summary covering the remaining day. -/
theorem c3_day_failure_aborts_enhanced_run :
    performEnhancedComparison exCsvFail exWfxFail defaultJobMatching
      exGetJob = Except.error () := by
  with_unfolding_all rfl

/-- The traditional fold visits every date in order. -/
lemma tradFold_days_keys (wfxData : List (List Char × WfxDay))
    (acfg : AlertConfig) :
    ∀ (csvData : List (List Char × CsvDay)) (acc : TradResult),
      ((csvData.foldl (tradStep wfxData acfg) acc).days).map Prod.fst =
        acc.days.map Prod.fst ++ csvData.map Prod.fst := by
  intro csvData
  induction csvData with
  | nil => intro acc; simp
  | cons day rest ih =>
    intro acc
    rw [List.foldl_cons, ih]
    simp [tradStep]

/-- The traditional comparison covers exactly the input dates. -/
lemma performTraditionalComparison_keys
    (csvData : List (List Char × CsvDay))
    (wfxData : List (List Char × WfxDay)) (acfg : AlertConfig) :
    (performTraditionalComparison csvData wfxData acfg).days.map Prod.fst =
      csvData.map Prod.fst := by
  unfold performTraditionalComparison
  rw [tradFold_days_keys]
  simp

/-- In every branch, `performComparison` reports the traditional days. -/
lemma performComparison_days (csvData : List (List Char × CsvDay))
    (wfxData : List (List Char × WfxDay)) (cfg : MatchConfig)
    (acfg : AlertConfig) (getJob : List Char → Option RawJob) :
    (performComparison csvData wfxData cfg acfg getJob).dailyComparisons =
      (performTraditionalComparison csvData wfxData acfg).days := by
  unfold performComparison
  split
  · split <;> rfl
  · rfl

/-- C3, amended.  One day's failure is not isolated: it aborts the whole
enhanced comparison, and `performComparison` catches that error and falls
back to the traditional result — a day comparison for every input date is
still returned, but the enhanced comparisons are empty and the summary is
exactly the traditional summary, with no recorded alert for the failure. -/
theorem c3_run_falls_back_to_traditional
    (csvData : List (List Char × CsvDay))
    (wfxData : List (List Char × WfxDay)) (cfg : MatchConfig)
    (acfg : AlertConfig) (getJob : List Char → Option RawJob) (e : Unit) :
    ((performComparison csvData wfxData cfg acfg getJob).dailyComparisons.map
        Prod.fst = csvData.map Prod.fst) ∧
    (performEnhancedComparison csvData wfxData cfg getJob = .error e →
      (performComparison csvData wfxData cfg acfg getJob).enhancedComparisons
          = [] ∧
      (performComparison csvData wfxData cfg acfg getJob).summary =
        (performTraditionalComparison csvData wfxData acfg).summary) := by
  constructor
  · rw [performComparison_days, performTraditionalComparison_keys]
  · intro h
    unfold performComparison
    split
    · rw [h]
      exact ⟨rfl, rfl⟩
    · exact ⟨rfl, rfl⟩

/-- C3, witness: on the concrete failing two-day run the fallback fires. -/
theorem c3_run_falls_back_to_traditional_witness :
    (performComparison exCsvFail exWfxFail defaultJobMatching defaultAlerts
        exGetJob).enhancedComparisons = [] ∧
    (performComparison exCsvFail exWfxFail defaultJobMatching defaultAlerts
        exGetJob).summary =
      (performTraditionalComparison exCsvFail exWfxFail
        defaultAlerts).summary :=
  (c3_run_falls_back_to_traditional exCsvFail exWfxFail defaultJobMatching
    defaultAlerts exGetJob ()).2 (by with_unfolding_all rfl)

/-- C4, counterexample.  With the trip 09:00-10:00 and an entry starting
09:30 for 60 minutes, the code's time score is 1/2 (overlap 30 over the
larger interval length 60), not 1/3 (overlap 30 over the union span 90) as
the claim's formula requires. -/
theorem c4_union_span_formula_refuted :
    (calculateTimeMatch exTrip4 exEntry4).score ≠
      specTimeScoreUnion exTrip4 exEntry4 :=
  of_decide_eq_true (by with_unfolding_all rfl)

/-- C4, amended.  For every trip/entry pair with present trip times, the
time score equals the overlap in minutes divided by the larger of the two
interval lengths (not by the span of their union), and 0 when that larger
length is not positive. -/
theorem c4_time_score_overlap_over_max_length (trip : Trip)
    (wfxEntry : WfxEntry) (h1 : trip.started ≠ none)
    (h2 : trip.finish ≠ none) :
    (calculateTimeMatch trip wfxEntry).score =
      specTimeScoreMaxLen trip wfxEntry := by
  simp only [calculateTimeMatch, specTimeScoreMaxLen, tripIntervalLen,
    entryIntervalLen, intervalOverlap, add_sub_cancel_left]

/-- C4, witness: the amended formula evaluated on the counterexample pair. -/
theorem c4_time_score_overlap_over_max_length_witness :
    exTrip4.started ≠ none ∧ exTrip4.finish ≠ none ∧
    (calculateTimeMatch exTrip4 exEntry4).score =
      specTimeScoreMaxLen exTrip4 exEntry4 :=
  ⟨by decide, by decide,
    c4_time_score_overlap_over_max_length exTrip4 exEntry4 (by decide)
      (by decide)⟩

/-- C5, counterexample.  On the claimed scenario (csvNetHours 8.0,
wfxTotalHours 6.0, threshold 0.5) no alert of the day has severity `high`:
the diff is exactly 2.0 and the code requires strictly more than 2 hours. -/
theorem c5_no_high_severity_alert :
    ((tradDay defaultAlerts "2025-01-06".data exCsv5
        (some exWfx5)).alerts.filter
      (fun a => a.severity = some "high".data)).length = 0 :=
  of_decide_eq_true (by with_unfolding_all rfl)

/-- C5, amended.  The scenario day gets status `discrepancy` and its
hours-discrepancy alert has severity `medium`, because the difference 2.0
does not exceed the strict `> 2` bound for `high`. -/
theorem c5_discrepancy_day_has_medium_severity :
    (tradDay defaultAlerts "2025-01-06".data exCsv5 (some exWfx5)).status =
      "discrepancy".data ∧
    (tradDay defaultAlerts "2025-01-06".data exCsv5 (some exWfx5)).alerts =
      [{ atype := "hours_discrepancy".data
         severity := some "medium".data }] :=
  of_decide_eq_true (by with_unfolding_all rfl)

/-- C9, counterexample.  With matchedJobs 1 and unmatchedWfxEntries 2 the
stored accuracy is 33.3 (rounded to one decimal by `toFixed(1)`), not the
claimed exact ratio 100/3. -/
theorem c9_exact_ratio_refuted :
    (calculateAccuracyMetrics { initEnhancedSummary with
        matchedJobs := 1, unmatchedWfxEntries := 2 }).locationMatchAccuracy ≠
      (1 : ℚ) / ((1 : ℚ) + 2) * 100 :=
  of_decide_eq_true (by with_unfolding_all rfl)

/-- C9, amended.  The accuracy metrics are the claimed completion ratios
rounded to one decimal place (`toFixed(1)`), with value 0 when the
denominator is 0; the 8-matched/2-unmatched scenario yields exactly 80. -/
theorem c9_accuracy_metrics_rounded_formula :
    (∀ s : EnhancedSummary,
      (calculateAccuracyMetrics s).locationMatchAccuracy =
        specRoundedShare s.matchedJobs (s.matchedJobs + s.unmatchedWfxEntries) ∧
      (calculateAccuracyMetrics s).timeMatchAccuracy =
        specRoundedShare s.matchedJobs (s.matchedJobs + s.unmatchedTrips)) ∧
    (calculateAccuracyMetrics { initEnhancedSummary with
        matchedJobs := 8, unmatchedWfxEntries := 2 }).locationMatchAccuracy =
      80 :=
  ⟨fun _ => ⟨rfl, rfl⟩, of_decide_eq_true (by with_unfolding_all rfl)⟩


lemma jsOrQ_nonneg {m : Option ℚ} (h : ∀ q, m = some q → 0 ≤ q) (d : ℚ)
    (hd : 0 ≤ d) : 0 ≤ jsOrQ m d := by
  cases m with
  | none => exact hd
  | some v =>
    show 0 ≤ if v = 0 then d else v
    split
    · exact hd
    · exact h v rfl

lemma partialAddressMatch_bounds (x y : List Char) :
    0 ≤ calculatePartialAddressMatch x y ∧
      calculatePartialAddressMatch x y ≤ 1 := by
  unfold calculatePartialAddressMatch
  dsimp only
  split
  · norm_num
  · next h =>
    push_neg at h
    set w1 := (splitSpace x).filter (fun w => decide (2 < w.length))
    set w2 := (splitSpace y).filter (fun w => decide (2 < w.length))
    have hm : (0 : ℚ) < (w1.length : ℚ) ⊔ (w2.length : ℚ) := by
      have h1 : 1 ≤ w1.length := Nat.one_le_iff_ne_zero.mpr h.1
      have : (1 : ℚ) ≤ (w1.length : ℚ) := by exact_mod_cast h1
      exact lt_of_lt_of_le (by norm_num) (le_trans this le_sup_left)
    constructor
    · exact div_nonneg (Nat.cast_nonneg _)
        (le_trans (Nat.cast_nonneg w1.length) le_sup_left)
    · rw [div_le_one hm]
      refine le_trans ?_ (le_sup_left : (w1.length : ℚ) ≤ _)
      exact_mod_cast List.length_filter_le _ w1

lemma locationScore_bounds (a b : Option (List Char)) :
    0 ≤ (calculateLocationMatch a b).score ∧
      (calculateLocationMatch a b).score ≤ 1 := by
  unfold calculateLocationMatch
  split
  · norm_num
  · dsimp only
    split
    · norm_num
    · split
      · exact partialAddressMatch_bounds _ _
      · exact partialAddressMatch_bounds _ _

lemma timeScore_bounds (trip : Trip) (e : WfxEntry) :
    0 ≤ (calculateTimeMatch trip e).score ∧
      (calculateTimeMatch trip e).score ≤ 1 := by
  unfold calculateTimeMatch
  dsimp only
  split
  · next hpos =>
    constructor
    · exact div_nonneg (le_max_left 0 _) (le_of_lt hpos)
    · rw [div_le_one hpos]
      refine max_le (le_of_lt hpos) ?_
      exact le_trans (sub_le_sub (min_le_right _ _) (le_max_right _ _))
        (le_max_right _ _)
  · norm_num

lemma locationPart_bounds (x : ℚ) (cfg : MatchConfig)
    (h0 : 0 ≤ cfg.locationWeight) :
    0 ≤ (locationPart x cfg).1 ∧
      (locationPart x cfg).1 ≤ cfg.locationWeight := by
  unfold locationPart
  split_ifs <;> dsimp only <;> constructor <;> nlinarith

lemma timeOverlapPart_bounds (x : ℚ) (cfg : MatchConfig)
    (h0 : 0 ≤ cfg.timeWeight) :
    0 ≤ (timeOverlapPart x cfg).1 ∧
      (timeOverlapPart x cfg).1 ≤ cfg.timeWeight := by
  unfold timeOverlapPart
  split_ifs <;> dsimp only <;> constructor <;> nlinarith

lemma durationPart_bounds (x : ℚ) (cfg : MatchConfig)
    (h0 : 0 ≤ cfg.durationWeight) :
    0 ≤ (durationPart x cfg).1 ∧
      (durationPart x cfg).1 ≤ cfg.durationWeight := by
  unfold durationPart
  split_ifs <;> dsimp only <;> constructor <;> nlinarith

lemma jobTypePart_neutral (trip : Trip) (e : WfxEntry) (cfg : MatchConfig) :
    jobTypePart (calculateJobTypeMatch trip e) cfg = (0, []) := by
  unfold jobTypePart calculateJobTypeMatch
  norm_num

lemma matchScoreJD_bounds (trip : Trip) (e : WfxEntry) (jd : JobDetails)
    (cfg : MatchConfig) (h1 : 0 ≤ cfg.locationWeight)
    (h2 : 0 ≤ cfg.timeWeight) (h3 : 0 ≤ cfg.durationWeight)
    (hsum : cfg.locationWeight + cfg.timeWeight + cfg.durationWeight +
      cfg.jobTypeWeight ≤ 1) (h4 : 0 ≤ cfg.jobTypeWeight) :
    (0 ≤ (calculateMatchScoreJD trip e jd cfg).confidence ∧
      (calculateMatchScoreJD trip e jd cfg).confidence ≤ 1) ∧
    (0 ≤ (calculateMatchScoreJD trip e jd cfg).locationMatch ∧
      (calculateMatchScoreJD trip e jd cfg).locationMatch ≤ 1) ∧
    (0 ≤ (calculateMatchScoreJD trip e jd cfg).timeMatch ∧
      (calculateMatchScoreJD trip e jd cfg).timeMatch ≤ 1) := by
  unfold calculateMatchScoreJD
  dsimp only
  rw [jobTypePart_neutral]
  dsimp only
  obtain ⟨la, lb⟩ := locationPart_bounds
    (calculateLocationMatch trip.addressTo jd.address).score cfg h1
  obtain ⟨ta, tb⟩ := timeOverlapPart_bounds
    (calculateTimeMatch trip e).score cfg h2
  obtain ⟨da, db⟩ := durationPart_bounds
    (calculateDurationMatch trip e) cfg h3
  refine ⟨⟨by linarith, by linarith⟩,
    locationScore_bounds _ _, timeScore_bounds _ _⟩

lemma matchScoreJD_criteria (trip : Trip) (e : WfxEntry) (jd : JobDetails)
    (cfg : MatchConfig) :
    ∀ x ∈ (calculateMatchScoreJD trip e jd cfg).criteria, x ∈ coreTags := by
  intro x hx
  unfold calculateMatchScoreJD at hx
  dsimp only at hx
  rw [jobTypePart_neutral] at hx
  simp only [List.append_nil, List.mem_append] at hx
  rcases hx with (hx | hx) | hx
  · unfold locationPart at hx
    split_ifs at hx <;> simp only [List.mem_singleton] at hx <;>
      first
        | (subst hx; simp [coreTags])
        | simp at hx
  · unfold timeOverlapPart at hx
    split_ifs at hx <;> simp only [List.mem_singleton] at hx <;>
      first
        | (subst hx; simp [coreTags])
        | simp at hx
  · unfold durationPart at hx
    split_ifs at hx <;> simp only [List.mem_singleton] at hx <;>
      first
        | (subst hx; simp [coreTags])
        | simp at hx

lemma findBestJobMatch_criteria {trip : Trip} {cfg : MatchConfig} :
    ∀ (es : List WfxEntry) (acc : Option BestMatch),
      (∀ b, acc = some b → ∀ x ∈ b.criteria, x ∈ coreTags) →
      ∀ b, es.foldl (findBestStep trip cfg) acc = some b →
        ∀ x ∈ b.criteria, x ∈ coreTags := by
  intro es
  induction es with
  | nil => intro acc hacc b hb; exact hacc b hb
  | cons e es' ih =>
    intro acc hacc b hb
    rw [List.foldl_cons] at hb
    refine ih _ ?_ b hb
    intro b' hb'
    unfold findBestStep at hb'
    match hjd : e.jobDetails with
    | none => rw [hjd] at hb'; exact hacc b' hb'
    | some jd =>
      rw [hjd] at hb'
      dsimp only at hb'
      split at hb'
      · cases hb'
        exact matchScoreJD_criteria trip e jd cfg
      · exact hacc b' hb'

lemma pass1Go_matched (wfxAll : List WfxEntry) (cfg : MatchConfig)
    (P : MatchInfo → Prop)
    (hstep : ∀ t bm, findBestJobMatch t wfxAll cfg = some bm →
      bm.confidence > cfg.minimumMatchConfidence → P (mkMatchInfo t bm)) :
    ∀ (revPre : List Trip) (st : MatchResults),
      (∀ m ∈ st.matched, P m) →
      ∀ m ∈ (pass1Go wfxAll cfg revPre st).matched, P m := by
  intro revPre
  induction revPre with
  | nil => intro st hst m hm; exact hst m hm
  | cons trip rest ih =>
    intro st hst m hm
    unfold pass1Go at hm
    match hbest : findBestJobMatch trip wfxAll cfg with
    | none =>
      rw [hbest] at hm
      dsimp only at hm
      refine ih _ ?_ m hm
      exact hst
    | some bm =>
      rw [hbest] at hm
      dsimp only at hm
      split at hm
      · next hconf =>
        refine ih _ ?_ m hm
        intro m' hm'
        rcases List.mem_append.mp hm' with h1 | h2
        · exact hst m' h1
        · rcases List.mem_singleton.mp h2 with rfl
          exact hstep trip bm hbest hconf
      · refine ih _ ?_ m hm
        exact hst

lemma fuzzyFind_some {trip : Trip} {cfg : MatchConfig} :
    ∀ (es : List WfxEntry) (s : Score) (e : WfxEntry)
      (rest : List WfxEntry),
      fuzzyFind trip cfg es = .ok (some (s, e, rest)) →
      s.confidence > cfg.fuzzyMatchThreshold ∧
        ∃ jd, e.jobDetails = some jd ∧
          s = calculateMatchScoreJD trip e jd cfg := by
  intro es
  induction es with
  | nil => intro s e rest h; simp [fuzzyFind] at h
  | cons e0 es' ih =>
    intro s e rest h
    unfold fuzzyFind at h
    match hrec : fuzzyFind trip cfg es' with
    | .error err => rw [hrec] at h; simp [Bind.bind, Except.bind] at h
    | .ok none =>
      rw [hrec] at h
      simp only [Bind.bind, Except.bind] at h
      unfold calculateMatchScore at h
      match hjd : e0.jobDetails with
      | none => rw [hjd] at h; simp [Bind.bind, Except.bind] at h
      | some jd =>
        rw [hjd] at h
        simp only [Bind.bind, Except.bind] at h
        split at h
        · next hconf =>
          simp only [pure, Except.pure, Except.ok.injEq, Option.some.injEq,
            Prod.mk.injEq] at h
          obtain ⟨h1, h2, h3⟩ := h
          subst h1; subst h2
          exact ⟨hconf, jd, hjd, rfl⟩
        · simp [pure, Except.pure] at h
    | .ok (some (s', e', rest')) =>
      rw [hrec] at h
      simp only [Bind.bind, Except.bind, pure, Except.pure, Except.ok.injEq,
        Option.some.injEq, Prod.mk.injEq] at h
      obtain ⟨h1, h2, h3⟩ := h
      subst h1; subst h2
      exact ih _ _ _ hrec

lemma fuzzyGo_matched (cfg : MatchConfig) (P : MatchInfo → Prop)
    (hstep : ∀ t e s, s.confidence > cfg.fuzzyMatchThreshold →
      (∃ jd, e.jobDetails = some jd ∧
        s = calculateMatchScoreJD t e jd cfg) →
      P (mkFuzzyMatchInfo t e s)) :
    ∀ (revPre : List Trip) (wfx : List WfxEntry) (surv : List Trip)
      (ms : List MatchInfo), (∀ m ∈ ms, P m) →
      ∀ res, fuzzyGo cfg revPre wfx surv ms = .ok res →
        ∀ m ∈ res.1, P m := by
  intro revPre
  induction revPre with
  | nil =>
    intro wfx surv ms hms res hres m hm
    simp only [fuzzyGo, pure, Except.pure, Except.ok.injEq] at hres
    subst hres
    exact hms m hm
  | cons trip rest ih =>
    intro wfx surv ms hms res hres m hm
    unfold fuzzyGo at hres
    match hf : fuzzyFind trip cfg wfx with
    | .error err => rw [hf] at hres; simp [Bind.bind, Except.bind] at hres
    | .ok none =>
      rw [hf] at hres
      simp only [Bind.bind, Except.bind] at hres
      exact ih _ _ _ hms res hres m hm
    | .ok (some (s, e, wfx')) =>
      rw [hf] at hres
      simp only [Bind.bind, Except.bind] at hres
      refine ih _ _ _ ?_ res hres m hm
      intro m' hm'
      rcases List.mem_append.mp hm' with h1 | h2
      · exact hms m' h1
      · rcases List.mem_singleton.mp h2 with rfl
        obtain ⟨hconf, hex⟩ := fuzzyFind_some wfx s e wfx' hf
        exact hstep trip e s hconf hex

lemma performJobMatching_matched (trips : List Trip)
    (entries : List WfxEntry) (cfg : MatchConfig) (P : MatchInfo → Prop)
    (hpass1 : ∀ t bm, findBestJobMatch t entries cfg = some bm →
      bm.confidence > cfg.minimumMatchConfidence → P (mkMatchInfo t bm))
    (hfuzzy : ∀ t e s, s.confidence > cfg.fuzzyMatchThreshold →
      (∃ jd, e.jobDetails = some jd ∧
        s = calculateMatchScoreJD t e jd cfg) →
      P (mkFuzzyMatchInfo t e s)) :
    ∀ m ∈ matchedOf (performJobMatching trips entries cfg), P m := by
  intro m hm
  unfold performJobMatching performFuzzyMatching at hm
  set st := pass1Go entries cfg trips.reverse
    { matched := []
      unmatchedTrips := []
      unmatchedWfxEntries := entries
      timeDiscrepancies := []
      locationIssues := [] } with hst
  have hstm : ∀ m ∈ st.matched, P m := by
    refine pass1Go_matched entries cfg P hpass1 trips.reverse _ ?_
    intro m hm2
    simp at hm2
  dsimp only at hm
  match hgo : fuzzyGo cfg st.unmatchedTrips.reverse st.unmatchedWfxEntries []
      st.matched with
  | .error err =>
    rw [hgo] at hm
    simp [matchedOf, Bind.bind, Except.bind] at hm
  | .ok res =>
    rw [hgo] at hm
    simp only [Bind.bind, Except.bind, pure, Except.pure, matchedOf] at hm
    have := fuzzyGo_matched cfg P hfuzzy st.unmatchedTrips.reverse
      st.unmatchedWfxEntries [] st.matched hstm res hgo m
    apply this
    exact hm

/-- C7.  For every trip/entry pair, when the four configured weights lie in
the unit interval and sum to at most 1, the input times are present and the
entry minutes are nonnegative, every score `calculateMatchScore` returns
has `confidence`, `locationMatch` and `timeMatch` in the unit interval. -/
theorem c7_scores_in_unit_interval (trip : Trip) (wfxEntry : WfxEntry)
    (cfg : MatchConfig) (s : Score)
    (h1 : 0 ≤ cfg.locationWeight ∧ cfg.locationWeight ≤ 1)
    (h2 : 0 ≤ cfg.timeWeight ∧ cfg.timeWeight ≤ 1)
    (h3 : 0 ≤ cfg.durationWeight ∧ cfg.durationWeight ≤ 1)
    (h4 : 0 ≤ cfg.jobTypeWeight ∧ cfg.jobTypeWeight ≤ 1)
    (hsum : cfg.locationWeight + cfg.timeWeight + cfg.durationWeight +
      cfg.jobTypeWeight ≤ 1)
    (htimes : trip.started ≠ none ∧ trip.finish ≠ none)
    (hmin : ∀ q, wfxEntry.minutes = some q → 0 ≤ q)
    (hok : calculateMatchScore trip wfxEntry cfg = .ok s) :
    (0 ≤ s.confidence ∧ s.confidence ≤ 1) ∧
    (0 ≤ s.locationMatch ∧ s.locationMatch ≤ 1) ∧
    (0 ≤ s.timeMatch ∧ s.timeMatch ≤ 1) := by
  unfold calculateMatchScore at hok
  match hjd : wfxEntry.jobDetails with
  | none => rw [hjd] at hok; simp at hok
  | some jd =>
    rw [hjd] at hok
    simp only [Except.ok.injEq] at hok
    subst hok
    exact matchScoreJD_bounds trip wfxEntry jd cfg h1.1 h2.1 h3.1 hsum h4.1

/-- C7, witness: the concrete confident pair scores 0.8/1/1. -/
theorem c7_scores_in_unit_interval_witness :
    calculateMatchScore exTripA exEntry1 defaultJobMatching =
      .ok exScore1 ∧
    (0 ≤ exScore1.confidence ∧ exScore1.confidence ≤ 1) ∧
    (0 ≤ exScore1.locationMatch ∧ exScore1.locationMatch ≤ 1) ∧
    (0 ≤ exScore1.timeMatch ∧ exScore1.timeMatch ≤ 1) :=
  ⟨rfl,
    c7_scores_in_unit_interval exTripA exEntry1 defaultJobMatching exScore1
      (by norm_num [defaultJobMatching]) (by norm_num [defaultJobMatching])
      (by norm_num [defaultJobMatching]) (by norm_num [defaultJobMatching])
      (by norm_num [defaultJobMatching]) (by simp [exTripA])
      (fun q hq => by
        rw [show exEntry1.minutes = some 60 from rfl] at hq
        injection hq with h
        rw [← h]
        norm_num)
      rfl⟩

/-- C8.  Thresholds are strictly honored: every match the engine commits is
either a fuzzy-pass match (tagged `fuzzy_match`) with confidence strictly
above the fuzzy threshold, or a confident-pass match with confidence
strictly above the minimum-match confidence. -/
theorem c8_thresholds_strictly_honored (trips : List Trip) (entries : List WfxEntry)
    (cfg : MatchConfig) :
    ∀ m ∈ matchedOf (performJobMatching trips entries cfg),
      ("fuzzy_match".data ∈ m.matchCriteria →
        m.confidence > cfg.fuzzyMatchThreshold) ∧
      ("fuzzy_match".data ∉ m.matchCriteria →
        m.confidence > cfg.minimumMatchConfidence) := by
  refine performJobMatching_matched trips entries cfg _ ?_ ?_
  · intro t bm hbest hconf
    constructor
    · intro hmem
      exfalso
      have hsub := findBestJobMatch_criteria entries none
        (by intro b hb; cases hb) bm hbest "fuzzy_match".data hmem
      revert hsub
      decide
    · intro _
      exact hconf
  · intro t e s hconf hex
    constructor
    · intro _
      exact hconf
    · intro hmem
      exfalso
      exact hmem (List.mem_append_right _ (List.mem_singleton.mpr rfl))

/-- C8, witness: the committed example match is a confident-pass match with
confidence 0.8 above the default minimum 0.7. -/
theorem c8_thresholds_strictly_honored_witness :
    exMatchInfo1 ∈ matchedOf (performJobMatching [exTripA] [exEntry1]
      defaultJobMatching) ∧
    ("fuzzy_match".data ∉ exMatchInfo1.matchCriteria →
      exMatchInfo1.confidence > defaultJobMatching.minimumMatchConfidence) :=
  ⟨of_decide_eq_true (by with_unfolding_all rfl),
    (c8_thresholds_strictly_honored [exTripA] [exEntry1] defaultJobMatching exMatchInfo1
      (of_decide_eq_true (by with_unfolding_all rfl))).2⟩

/-- C10.  The job-type dimension contributes exactly zero: the match score
is unchanged under any replacement of the job-type weight (its score is the
constant 0.5 while a contribution needs strictly more than 0.5), and the
tag `job_type_match` never appears in any committed match's criteria. -/
theorem c10_job_type_contributes_nothing :
    (∀ (trip : Trip) (e : WfxEntry) (jd : JobDetails) (cfg : MatchConfig)
      (w : ℚ), calculateMatchScoreJD trip e jd cfg =
        calculateMatchScoreJD trip e jd (setJobTypeWeight cfg w)) ∧
    (∀ (trips : List Trip) (entries : List WfxEntry) (cfg : MatchConfig),
      ∀ m ∈ matchedOf (performJobMatching trips entries cfg),
        "job_type_match".data ∉ m.matchCriteria) := by
  constructor
  · intro trip e jd cfg w
    unfold calculateMatchScoreJD
    dsimp only
    rw [jobTypePart_neutral, jobTypePart_neutral]
    rfl
  · intro trips entries cfg
    refine performJobMatching_matched trips entries cfg _ ?_ ?_
    · intro t bm hbest _
      intro hmem
      have hsub := findBestJobMatch_criteria entries none
        (by intro b hb; cases hb) bm hbest "job_type_match".data hmem
      revert hsub
      decide
    · intro t e s _ hex hmem
      obtain ⟨jd, hjd, hs⟩ := hex
      rcases List.mem_append.mp hmem with h1 | h1
      · rw [hs] at h1
        have hsub := matchScoreJD_criteria t e jd cfg _ h1
        revert hsub
        decide
      · simp at h1

/-- C10, witness: invariance and tag absence on the concrete example. -/
theorem c10_job_type_contributes_nothing_witness :
    calculateMatchScoreJD exTripA exEntry1
        { address := some "123 Main St".data } defaultJobMatching =
      calculateMatchScoreJD exTripA exEntry1
        { address := some "123 Main St".data }
        (setJobTypeWeight defaultJobMatching 0) ∧
    "job_type_match".data ∉ exMatchInfo1.matchCriteria :=
  ⟨c10_job_type_contributes_nothing.1 exTripA exEntry1 { address := some "123 Main St".data }
      defaultJobMatching 0,
    c10_job_type_contributes_nothing.2 [exTripA] [exEntry1] defaultJobMatching exMatchInfo1
      (of_decide_eq_true (by with_unfolding_all rfl))⟩

/-- C6, counterexample.  Address normalization is not idempotent: for the
address "s.t", punctuation removal produces the bare suffix token "st",
which a second normalization deletes, so normalize(normalize "s.t") = ""
differs from normalize "s.t" = "st". -/
theorem c6_normalize_not_idempotent :
    normalizeAddress (normalizeAddress "s.t".data) ≠
      normalizeAddress "s.t".data := by
  decide

/-- C6, amended.  Address normalization is idempotent on every address
free of punctuation, i.e. consisting only of word characters and
whitespace; punctuation removal is the one step that can manufacture a new
street-suffix token. -/
theorem c6_normalize_idempotent_on_punctuation_free (l : List Char)
    (h : l.all isWS = true) :
    normalizeAddress (normalizeAddress l) = normalizeAddress l :=
  normalizeAddress_idem_of_all_isWS l h

/-- C6, witness: idempotence on a concrete punctuation-free address. -/
theorem c6_normalize_idempotent_witness :
    ("12 Foo St".data).all isWS = true ∧
    normalizeAddress (normalizeAddress "12 Foo St".data) =
      normalizeAddress "12 Foo St".data :=
  ⟨by decide,
    c6_normalize_idempotent_on_punctuation_free "12 Foo St".data (by decide)⟩

end WfxSpec
